import Mathlib

/-!
# spt-notification: the source registry, the lifecycle controller and the event dispatcher

A shallow embedding of `src/spt-notification-source.cpp` and of the parts of
`src/spt-notification-plugin.cpp` that drive it: the task bridge, the activate and
deactivate callbacks and the entry points that dispatch events.

* Instances of `NotificationSource` are named by natural numbers (their addresses); a
  nullable pointer to an instance is an `Option Nat`.
* The intrusive list (`first_notification`, `next`, `p_prev_next`) is the structure
  `Registry`; a `NotificationSource **` is a `Loc`.
* The build modelled is the one without `ENABLE_NOTIFICATION_QT_LOOP` (the `#else`
  branches); the other compile-time switches that the modelled code reads are fields of
  `Build`.
-/

namespace SptNotification

/-! ## The source registry -/

/-- The target of a `NotificationSource **`: the global `first_notification`, or the
`next` field of an instance. -/
inductive Loc where
  | head : Loc
  | nextOf (i : Nat) : Loc
deriving DecidableEq, Repr

/-- The memory the registry lives in: the global `first_notification` and the two link
fields of every instance. -/
structure Registry where
  first_notification : Option Nat
  next : Nat → Option Nat
  p_prev_next : Nat → Loc

/-- Static initialisation: `first_notification = nullptr`. -/
def Registry.init : Registry :=
  { first_notification := none, next := fun _ => none, p_prev_next := fun _ => Loc.head }

/-- Reading through a `NotificationSource **`. -/
def Registry.load (s : Registry) : Loc → Option Nat
  | Loc.head => s.first_notification
  | Loc.nextOf i => s.next i

/-- Writing through a `NotificationSource **` (`*p = v`). -/
def Registry.store (s : Registry) (l : Loc) (v : Option Nat) : Registry :=
  match l with
  | Loc.head => { s with first_notification := v }
  | Loc.nextOf i => { s with next := fun j => if j = i then v else s.next j }

/-- The list part of the constructor `NotificationSource::NotificationSource`
(lines 101-106):
`p_prev_next = &first_notification; next = first_notification;`
`if (first_notification) first_notification->p_prev_next = &next;`
`first_notification = this;` -/
def Registry.construct (s : Registry) (this : Nat) : Registry :=
  let s1 : Registry := { s with p_prev_next := fun j => if j = this then Loc.head else s.p_prev_next j }
  let s2 : Registry := { s1 with next := fun j => if j = this then s1.first_notification else s1.next j }
  let s3 : Registry :=
    match s2.first_notification with
    | some f => { s2 with p_prev_next := fun j => if j = f then Loc.nextOf this else s2.p_prev_next j }
    | none => s2
  { s3 with first_notification := some this }

/-- The list part of `NotificationSource::Destroy` (lines 137-140):
`if (next) next->p_prev_next = p_prev_next; *p_prev_next = next;` -/
def Registry.Destroy (s : Registry) (this : Nat) : Registry :=
  let s1 : Registry :=
    match s.next this with
    | some n => { s with p_prev_next := fun j => if j = n then s.p_prev_next this else s.p_prev_next j }
    | none => s
  s1.store (s1.p_prev_next this) (s1.next this)

/-- The loop of `ExecuteOnAllNotifications` (lines 689-694), recording the instances it
visits: `bs = first_notification; while (bs) { visit bs; bs = bs->next; }`.
The loop has no bound in the source; here it gets `fuel` iterations and the result is
`none` when they do not suffice. -/
def Registry.walk (s : Registry) : Nat → Option Nat → Option (List Nat)
  | _, none => some []
  | 0, some _ => none
  | fuel + 1, some bs => (Registry.walk s fuel (s.next bs)).map (fun rest => bs :: rest)

/-- The instances visited by `ExecuteOnAllNotifications`, in order. -/
def Registry.traversal (s : Registry) (fuel : Nat) : Option (List Nat) :=
  s.walk fuel s.first_notification

/-- A call on the registry: the constructor of an instance, or `Destroy` on it. -/
inductive RegCall where
  | construct (this : Nat) : RegCall
  | Destroy (this : Nat) : RegCall
deriving DecidableEq, Repr

/-- One call applied to the registry. -/
def Registry.step (s : Registry) : RegCall → Registry
  | RegCall.construct x => s.construct x
  | RegCall.Destroy x => s.Destroy x

/-- The registry after a history of calls. A history lists the calls MOST RECENT FIRST:
`c :: past` is the history `past` followed by the call `c`. -/
def Registry.run : List RegCall → Registry
  | [] => Registry.init
  | c :: past => (Registry.run past).step c

/-- Whether instance `x` has been registered and not unregistered since, after the
history (most recent call first): the latest call on `x` is its constructor. -/
def registered (x : Nat) : List RegCall → Bool
  | [] => false
  | RegCall.construct y :: past => if y = x then true else registered x past
  | RegCall.Destroy y :: past => if y = x then false else registered x past

/-- The histories the host can produce: an instance is constructed only while it is not
registered (instances are distinct) and destroyed only while it is registered. -/
def admissible : List RegCall → Bool
  | [] => true
  | RegCall.construct y :: past => admissible past && !registered y past
  | RegCall.Destroy y :: past => admissible past && registered y past

/-! ### The list the registry represents -/

/-- Proof device: the sequence of instances the registry is expected to hold after a
history, most recently registered first. -/
def expected : List RegCall → List Nat
  | [] => []
  | RegCall.construct y :: past => y :: expected past
  | RegCall.Destroy y :: past => (expected past).erase y

/-- The link fields describe the list `l` hanging from location `loc`: `loc` holds the first
element, whose `p_prev_next` is `loc`, and so on; the last `next` is null. -/
def Chain (s : Registry) : Loc → List Nat → Prop
  | loc, [] => s.load loc = none
  | loc, x :: xs => s.load loc = some x ∧ s.p_prev_next x = loc ∧ Chain s (Loc.nextOf x) xs

/-! ## Strings and the file URL computed by `Update`

A `std::string` is a `List Char`. The strings searched and rewritten by `Update` are
percent-encoded, hence ASCII, so that byte positions and character positions agree. -/

/-- The switches of the build that the modelled code reads. -/
structure Build where
  /-- `_WIN32` is defined. -/
  win32 : Bool
  /-- `ENABLE_LOCAL_FILE_URL_SCHEME` is non-zero. -/
  local_file_url_scheme : Bool
  /-- `CHROME_VERSION_BUILD < 4103`. -/
  chrome_before_4103 : Bool
  /-- `ENABLE_WASHIDDEN` is non-zero. -/
  washidden : Bool
deriving DecidableEq, Repr

/-- `std::string::find(pat)`: the position of the first occurrence of `pat`, `none` for
`npos`. -/
def find (pat : List Char) : List Char → Option Nat
  | [] => if pat.isPrefixOf [] then some 0 else none
  | c :: cs => if pat.isPrefixOf (c :: cs) then some 0 else (find pat cs).map (fun i => i + 1)

/-- `s.replace(pos, len, str)` for `pos ≤ s.size()`. -/
def replace (s : List Char) (pos len : Nat) (str : List Char) : List Char :=
  s.take pos ++ str ++ s.drop (pos + len)

/-- The loop `while (s.find(pat) != npos) s.replace(s.find(pat), 3, "/");` (lines 518-522)
run for at most `fuel` iterations. -/
def replaceLoop (pat : List Char) : Nat → List Char → List Char
  | 0, s => s
  | fuel + 1, s =>
    match find pat s with
    | none => s
    | some i => replaceLoop pat fuel (replace s i 3 ['/'])

/-- The loop of lines 518-522 on `s`. Every iteration removes two characters, so
`s.length` iterations are enough for the loop to leave through its condition
(`find_replaceAll`). -/
def replaceAll (pat : List Char) (s : List Char) : List Char :=
  replaceLoop pat s.length s

/-- The characters `CefURIEncode` leaves alone: alphanumerics and `-_.!~*'()`. -/
def isUnreserved (c : Char) : Bool :=
  let n := c.toNat
  decide ((48 ≤ n ∧ n ≤ 57) ∨ (65 ≤ n ∧ n ≤ 90) ∨ (97 ≤ n ∧ n ≤ 122) ∨
    n ∈ [45, 95, 46, 33, 126, 42, 39, 40, 41])

/-- The UTF-8 bytes of a code point. -/
def utf8Bytes (n : Nat) : List Nat :=
  if n < 128 then [n]
  else if n < 2048 then [192 + n / 64, 128 + n % 64]
  else if n < 65536 then [224 + n / 4096, 128 + n / 64 % 64, 128 + n % 64]
  else [240 + n / 262144, 128 + n / 4096 % 64, 128 + n / 64 % 64, 128 + n % 64]

/-- An upper-case hexadecimal digit. -/
def hexDigit (d : Nat) : Char :=
  Char.ofNat (if d < 10 then 48 + d else 55 + d)

/-- The escape `%XX` of a byte. -/
def pctByte (b : Nat) : List Char :=
  ['%', hexDigit (b / 16), hexDigit (b % 16)]

/-- What `CefURIEncode` makes of one character. -/
def encodeChar (c : Char) : List Char :=
  if isUnreserved c then [c] else (utf8Bytes c.toNat).flatMap pctByte

/-- Modelled from the spec: `CefURIEncode(text, false)` belongs to the browser engine (CEF),
not to this repository; the spec only says that local file paths are percent-encoded. The
model follows the engine's documented contract: every byte of the UTF-8 text except
alphanumerics and `-_.!~*'()` becomes `%XX` (upper-case hex). -/
def CefURIEncode (text : List Char) : List Char :=
  text.flatMap encodeChar

/-- ASCII `toupper`. -/
def toupper (c : Char) : Char :=
  if 97 ≤ c.toNat ∧ c.toNat ≤ 122 then Char.ofNat (c.toNat - 32) else c

/-- The test `astrcmpi_n(str, pat, n) == 0` of libobs (`util/dstr.h`, outside this
repository) for a `pat` of exactly `n` characters: the first `n` characters of `str` exist
and equal `pat` up to ASCII case. -/
def astrcmpi_n_eq (str pat : List Char) (n : Nat) : Bool :=
  decide ((str.take n).map toupper = (pat.take n).map toupper)

/-- The wrap-around of the cast `(int)` applied to a `long long`. -/
def toInt32 (x : Int) : Int :=
  (x + 2147483648) % 4294967296 - 2147483648

/-- The keys of the settings object (`obs_data_t`) that `Update` reads. -/
structure Settings where
  is_local_file : Bool
  width : Int
  height : Int
  fps_custom : Bool
  fps : Int
  shutdown : Bool
  restart_when_active : Bool
  css : String
  url : List Char
  local_file : List Char
  reroute_audio : Bool
  webpage_control_level : Int
deriving DecidableEq

/-- The locals `n_is_local`, `n_width`, ... of `Update` after line 545. -/
structure Derived where
  n_is_local : Bool
  n_width : Int
  n_height : Int
  n_fps_custom : Bool
  n_fps : Int
  n_shutdown : Bool
  n_restart : Bool
  n_reroute : Bool
  n_webpage_control_level : Int
  n_url : List Char
  n_css : String
deriving DecidableEq

/-- Lines 510-516 (`_WIN32` only): the first `%3A` becomes `:` when a `%2F` exists and
the `%3A` comes before the first `%2F`. -/
def restoreColon (n_url : List Char) : List Char :=
  match find "%2F".toList n_url, find "%3A".toList n_url with
  | some slash, some colon => if colon < slash then replace n_url colon 3 [':'] else n_url
  | _, _ => n_url

/-- Lines 524-535: what is put in front of the rewritten path. -/
def urlScheme (cfg : Build) : List Char :=
  if !cfg.local_file_url_scheme then "http://absolute/".toList
  else if cfg.win32 then "file:///".toList
  else "file://".toList

/-- Lines 507-536: the URL made from a non-empty local file path. -/
def localFileUrl (cfg : Build) (path : List Char) : List Char :=
  let n_url := CefURIEncode path
  let n_url := if cfg.win32 then restoreColon n_url else n_url
  let n_url := replaceAll "%5C".toList n_url
  let n_url := replaceAll "%2F".toList n_url
  urlScheme cfg ++ n_url

/-- Lines 494-545 of `Update`: the values derived from the settings object. -/
def derive (cfg : Build) (settings : Settings) : Derived :=
  let n_is_local := settings.is_local_file
  let n_url := if n_is_local then settings.local_file else settings.url
  let n_url := if n_is_local && !n_url.isEmpty then localFileUrl cfg n_url else n_url
  let absolute := cfg.local_file_url_scheme && astrcmpi_n_eq n_url "http://absolute/".toList 16
  { n_is_local := if absolute then true else n_is_local
    n_width := toInt32 settings.width
    n_height := toInt32 settings.height
    n_fps_custom := settings.fps_custom
    n_fps := toInt32 settings.fps
    n_shutdown := settings.shutdown
    n_restart := settings.restart_when_active
    n_reroute := settings.reroute_audio
    n_webpage_control_level := toInt32 settings.webpage_control_level
    n_url := if absolute then "file:///".toList ++ n_url.drop 16 else n_url
    n_css := settings.css }

/-! ## Sources, the task bridge and the browser engine -/

/-- The fields of a `NotificationSource` that the lifecycle code reads and writes (the link
fields live in `Registry`; textures and audio streams are left out). -/
structure NotificationSource where
  destroying : Bool
  is_showing : Bool
  is_local : Bool
  width : Int
  height : Int
  fps_custom : Bool
  fps : Int
  shutdown_on_invisible : Bool
  restart : Bool
  reroute_audio : Bool
  webpage_control_level : Int
  css : String
  url : List Char
  create_notification : Bool
  first_update : Bool
  /-- The handle `cefNotification` of the source's browser; `none` is the null handle. -/
  cefNotification : Option Nat
deriving DecidableEq

/-- An argument of a process message. -/
inductive Arg where
  | bool (b : Bool) : Arg
  | str (s : String) : Arg
deriving DecidableEq, Repr

/-- The fields of `struct obs_mouse_event` (libobs); `CefMouseEvent` has the same three. -/
structure obs_mouse_event where
  modifiers : Nat
  x : Int
  y : Int
deriving DecidableEq, Repr

/-- The fields of `struct obs_key_event` (libobs). -/
structure obs_key_event where
  modifiers : Nat
  text : String
  native_modifiers : Nat
  native_scancode : Nat
  native_vkey : Nat
deriving DecidableEq, Repr

/-- The `type` of a `CefKeyEvent`, as far as `SendKeyClick` sets it. -/
inductive KeyEventType where
  | KEYEVENT_KEYUP : KeyEventType
  | KEYEVENT_RAWKEYDOWN : KeyEventType
  | KEYEVENT_CHAR : KeyEventType
deriving DecidableEq, Repr

/-- A call the plugin makes on a browser (on the browser itself, its host or its client). -/
inductive BrowserCall where
  | SendProcessMessage (name : String) (args : List Arg) : BrowserCall
  | WasResized : BrowserCall
  | WasHidden (hidden : Bool) : BrowserCall
  | Invalidate : BrowserCall
  | CloseBrowser : BrowserCall
  | OnAutoResize (width height : Int) : BrowserCall
  | SetAudioMuted (mute : Bool) : BrowserCall
  | ReloadIgnoreCache : BrowserCall
  | SendMouseClickEvent (e : obs_mouse_event) (type : Int) (mouse_up : Bool) (click_count : Nat) :
      BrowserCall
  | SendMouseMoveEvent (e : obs_mouse_event) (mouse_leave : Bool) : BrowserCall
  | SendMouseWheelEvent (e : obs_mouse_event) (x_delta y_delta : Int) : BrowserCall
  /-- `SetFocus(focus)`, which is `SendFocusEvent(focus)` for `CHROME_VERSION_BUILD < 4430`. -/
  | SetFocus (focus : Bool) : BrowserCall
  /-- `SendKeyEvent(e)`; of `e` only the type is kept: the key codes and the modifiers are
  taken from different fields of the host's event on different platforms. -/
  | SendKeyEvent (type : KeyEventType) : BrowserCall
deriving DecidableEq, Repr

/-- The closures handed to `ExecuteOnNotification` (a `NotificationFunc`), as data. -/
inductive NotificationFunc where
  /-- The function `ActuallyCloseNotification` (lines 109-124). -/
  | ActuallyCloseNotification : NotificationFunc
  /-- The closure `jsEvent` of `DispatchJSEvent` (lines 699-706). -/
  | jsEvent (eventName jsonString : String) : NotificationFunc
  /-- The closure of `Update` (lines 557-563); it captures `this` and reads `width` and
  `height` when it runs. -/
  | resize (this : Nat) : NotificationFunc
  /-- The closure of `SetShowing` (lines 401-406). -/
  | visibility (showing : Bool) : NotificationFunc
  /-- The closure of `SendMouseClick` (lines 275-282). -/
  | mouseClick (event : obs_mouse_event) (type : Int) (mouse_up : Bool) (click_count : Nat) :
      NotificationFunc
  /-- The closure of `SendMouseMove` (lines 293-299). -/
  | mouseMove (event : obs_mouse_event) (mouse_leave : Bool) : NotificationFunc
  /-- The closure of `SendMouseWheel` (lines 310-316). -/
  | mouseWheel (event : obs_mouse_event) (x_delta y_delta : Int) : NotificationFunc
  /-- The closure of `SendFocus` (lines 323-329). -/
  | focus (focus : Bool) : NotificationFunc
  /-- The closure of `SendKeyClick` (lines 352-382). -/
  | keyClick (event : obs_key_event) (key_up : Bool) : NotificationFunc
  /-- The closure of `SetActive` (lines 435-440). -/
  | active (active : Bool) : NotificationFunc
  /-- The closure of `Refresh` (line 449). -/
  | reload : NotificationFunc
deriving DecidableEq, Repr

/-- The closures handed to `QueueCEFTask`, as data. -/
inductive Task where
  /-- `[=]() { func(notification); }` of `ExecuteOnNotification` (line 172). -/
  | onNotification (notification : Nat) (func : NotificationFunc) : Task
  /-- The closure of `CreateNotification` (lines 180-249). -/
  | CreateNotification (this : Nat) : Task
  /-- The closure of `ClearAudioStreams` (lines 260-264). -/
  | ClearAudioStreams (this : Nat) : Task
  /-- The closure `[this]() { delete this; }` of `Destroy` (line 142). -/
  | deleteThis (this : Nat) : Task
deriving DecidableEq, Repr

/-- The browser engine as far as the plugin observes it. -/
structure Engine where
  /-- The number of browsers created so far; the next handle. -/
  created : Nat
  /-- The browsers created and not yet closed. -/
  live : List Nat
  /-- The source whose `CreateNotification` task created the browser. -/
  created_for : Nat → Nat
  /-- The back-reference `NotificationClient::bs` of the browser's client. -/
  client_bs : Nat → Option Nat
  /-- The calls made on browsers, oldest first. -/
  calls : List (Nat × BrowserCall)

/-- The state of the plugin and of its collaborators. -/
structure World where
  reg : Registry
  src : Nat → NotificationSource
  /-- What `obs_source_showing(source)` answers. -/
  showing : Nat → Bool
  /-- The flag set by `obs_source_set_audio_active`. -/
  audio_active : Nat → Bool
  /-- Whether `CefPostTask` accepts work (it stops doing so once the engine shuts down). -/
  accepting : Bool
  /-- The tasks accepted by the engine's UI thread and not yet run, oldest first. -/
  queue : List Task
  engine : Engine
  /-- The instances whose memory has been released by `delete`, latest first. -/
  freed : List Nat

/-- Replace the fields of one source. -/
def World.setSrc (w : World) (this : Nat) (v : NotificationSource) : World :=
  { w with src := fun j => if j = this then v else w.src j }

/-- The function `QueueCEFTask` (plugin, lines 105-108): the task is appended when the engine
accepts it; the result tells whether it did. -/
def QueueCEFTask (w : World) (task : Task) : World × Bool :=
  if w.accepting then ({ w with queue := w.queue ++ [task] }, true) else (w, false)

/-- The method `NotificationSource::ExecuteOnNotification(func, true)` (lines 166-175): the
task is queued only when the source has a browser; the result of `QueueCEFTask` is dropped.
(The synchronous variant is not used by the modelled code.) -/
def NotificationSource.ExecuteOnNotification (w : World) (this : Nat) (func : NotificationFunc) :
    World :=
  match (w.src this).cefNotification with
  | some notification => (QueueCEFTask w (Task.onNotification notification func)).1
  | none => w

/-- The method `SetNotification` (lines 452-456). -/
def SetNotification (w : World) (this : Nat) (b : Option Nat) : World :=
  w.setSrc this { w.src this with cefNotification := b }

/-- The method `CreateNotification` (lines 178-250): it only queues its closure. -/
def CreateNotification (w : World) (this : Nat) : World × Bool :=
  QueueCEFTask w (Task.CreateNotification this)

/-- The method `DestroyNotification` (lines 252-256). -/
def DestroyNotification (w : World) (this : Nat) : World :=
  SetNotification (NotificationSource.ExecuteOnNotification w this
    NotificationFunc.ActuallyCloseNotification) this none

/-- The method `ClearAudioStreams` (lines 258-265; builds with `CHROME_VERSION_BUILD < 4103`). -/
def ClearAudioStreams (w : World) (this : Nat) : World :=
  (QueueCEFTask w (Task.ClearAudioStreams this)).1

/-- The static `ExecuteOnNotification(func, bs)` (lines 675-683). -/
def ExecuteOnNotification (w : World) (func : NotificationFunc) (bs : Option Nat) : World :=
  match bs with
  | some bsw => NotificationSource.ExecuteOnNotification w bsw func
  | none => w

/-- The loop of `ExecuteOnAllNotifications` (lines 689-694) with `fuel` iterations; `none`
when they do not suffice. -/
def executeLoop (func : NotificationFunc) : Nat → World → Option Nat → Option World
  | _, w, none => some w
  | 0, _, some _ => none
  | fuel + 1, w, some bs =>
    let w1 := NotificationSource.ExecuteOnNotification w bs func
    executeLoop func fuel w1 (w1.reg.next bs)

/-- The function `ExecuteOnAllNotifications` (lines 685-695). -/
def ExecuteOnAllNotifications (fuel : Nat) (w : World) (func : NotificationFunc) : Option World :=
  executeLoop func fuel w w.reg.first_notification

/-- The function `DispatchJSEvent` (lines 697-712). The broadcast loops over the registry and
so takes `fuel`. -/
def DispatchJSEvent (fuel : Nat) (w : World) (eventName jsonString : String)
    (notification : Option Nat) : Option World :=
  match notification with
  | none => ExecuteOnAllNotifications fuel w (NotificationFunc.jsEvent eventName jsonString)
  | some bs => some (ExecuteOnNotification w (NotificationFunc.jsEvent eventName jsonString) (some bs))

/-- The function `SendNotificationVisibility` (lines 47-66), called directly on a handle. -/
def SendNotificationVisibility (cfg : Build) (e : Engine) (notification : Option Nat)
    (isVisible : Bool) : Engine :=
  match notification with
  | none => e
  | some b =>
    let hidden : List (Nat × BrowserCall) :=
      if cfg.washidden then
        (if isVisible then
          [(b, BrowserCall.WasResized), (b, BrowserCall.WasHidden false), (b, BrowserCall.Invalidate)]
        else [(b, BrowserCall.WasHidden true)])
      else []
    { e with calls := e.calls ++ hidden ++
        [(b, BrowserCall.SendProcessMessage "Visibility" [Arg.bool isVisible])] }

/-- Lines 547-549: the comparison of the derived values with the current fields, width and
height apart. -/
def sameButSize (d : Derived) (s : NotificationSource) : Bool :=
  d.n_is_local == s.is_local && d.n_fps_custom == s.fps_custom && d.n_fps == s.fps &&
  d.n_shutdown == s.shutdown_on_invisible && d.n_restart == s.restart && d.n_css == s.css &&
  d.n_url == s.url && d.n_reroute == s.reroute_audio &&
  d.n_webpage_control_level == s.webpage_control_level

/-- Lines 583-591 of `Update`, reached unless the settings only resize.
`DestroyTextures` is left out. -/
def recreate (cfg : Build) (w : World) (this : Nat) : World :=
  let w := DestroyNotification w this
  let w := if cfg.chrome_before_4103 then ClearAudioStreams w this else w
  let s := w.src this
  let s := if !s.shutdown_on_invisible || w.showing this then
      { s with create_notification := true } else s
  w.setSrc this { s with first_update := false }

/-- Lines 568-580 of `Update`: the derived values are stored and
`obs_source_set_audio_active(source, reroute_audio)` is called. -/
def storeDerived (w : World) (this : Nat) (d : Derived) : World :=
  let w := w.setSrc this
    { w.src this with is_local := d.n_is_local, width := d.n_width, height := d.n_height,
                      fps := d.n_fps, fps_custom := d.n_fps_custom,
                      shutdown_on_invisible := d.n_shutdown, reroute_audio := d.n_reroute,
                      webpage_control_level := d.n_webpage_control_level, restart := d.n_restart,
                      css := d.n_css, url := d.n_url }
  { w with audio_active := fun j => if j = this then d.n_reroute else w.audio_active j }

/-- The method `NotificationSource::Update(settings)` (lines 479-592); `none` is the null
settings pointer. -/
def Update (cfg : Build) (w : World) (this : Nat) (settings : Option Settings) : World :=
  match settings with
  | none => recreate cfg w this
  | some st =>
    let d := derive cfg st
    let s := w.src this
    if sameButSize d s then
      if d.n_width = s.width ∧ d.n_height = s.height then w
      else
        let w := w.setSrc this { s with width := d.n_width, height := d.n_height }
        NotificationSource.ExecuteOnNotification w this (NotificationFunc.resize this)
    else
      recreate cfg (storeDerived w this d) this

/-- The method `NotificationSource::Tick` (lines 594-597; the frame-rate bookkeeping of the
shared-texture builds is left out): `if (create_notification && CreateNotification())
create_notification = false;`. -/
def Tick (w : World) (this : Nat) : World :=
  if (w.src this).create_notification then
    let r := CreateNotification w this
    if r.2 then r.1.setSrc this { r.1.src this with create_notification := false } else r.1
  else w

/-- The string `json.dump()` of the one-field object built in `SetShowing`. -/
def visibleJson (showing : Bool) : String :=
  if showing then "\x7b\"visible\":true\x7d" else "\x7b\"visible\":false\x7d"

/-- The method `NotificationSource::SetShowing` (lines 386-430; the texture release at its end
is left out). -/
def SetShowing (cfg : Build) (w : World) (this : Nat) (showing : Bool) : World :=
  if (w.src this).destroying then w
  else
    let w := w.setSrc this { w.src this with is_showing := showing }
    if (w.src this).shutdown_on_invisible then
      if showing then Update cfg w this none else DestroyNotification w this
    else
      let w := NotificationSource.ExecuteOnNotification w this (NotificationFunc.visibility showing)
      let w := ExecuteOnNotification w
        (NotificationFunc.jsEvent "obsSourceVisibleChanged" (visibleJson showing)) (some this)
      { w with engine := SendNotificationVisibility cfg w.engine (w.src this).cefNotification showing }

/-- The method `NotificationSource::Destroy` (lines 132-143; `DestroyTextures` is left out):
the flag, the unlinking under the list mutex, and the deferred `delete this`. -/
def Destroy (w : World) (this : Nat) : World :=
  let w := w.setSrc this { w.src this with destroying := true }
  let w := { w with reg := w.reg.Destroy this }
  (QueueCEFTask w (Task.deleteThis this)).1

/-- The method `NotificationSource::SendMouseClick` (lines 267-284). -/
def SendMouseClick (w : World) (this : Nat) (event : obs_mouse_event) (type : Int)
    (mouse_up : Bool) (click_count : Nat) : World :=
  NotificationSource.ExecuteOnNotification w this
    (NotificationFunc.mouseClick event type mouse_up click_count)

/-- The method `NotificationSource::SendMouseMove` (lines 286-301). -/
def SendMouseMove (w : World) (this : Nat) (event : obs_mouse_event) (mouse_leave : Bool) : World :=
  NotificationSource.ExecuteOnNotification w this (NotificationFunc.mouseMove event mouse_leave)

/-- The method `NotificationSource::SendMouseWheel` (lines 303-318). -/
def SendMouseWheel (w : World) (this : Nat) (event : obs_mouse_event) (x_delta y_delta : Int) :
    World :=
  NotificationSource.ExecuteOnNotification w this (NotificationFunc.mouseWheel event x_delta y_delta)

/-- The method `NotificationSource::SendFocus` (lines 320-331). -/
def SendFocus (w : World) (this : Nat) (focus : Bool) : World :=
  NotificationSource.ExecuteOnNotification w this (NotificationFunc.focus focus)

/-- The method `NotificationSource::SendKeyClick` (lines 333-384): `if (destroying) return;`
and then the closure on the asynchronous path. -/
def SendKeyClick (w : World) (this : Nat) (event : obs_key_event) (key_up : Bool) : World :=
  if (w.src this).destroying then w
  else NotificationSource.ExecuteOnNotification w this (NotificationFunc.keyClick event key_up)

/-- The method `NotificationSource::Refresh` (lines 447-450). -/
def Refresh (w : World) (this : Nat) : World :=
  NotificationSource.ExecuteOnNotification w this NotificationFunc.reload

/-- The string `json.dump()` of the one-field object built in `SetActive`. -/
def activeJson (active : Bool) : String :=
  if active then "\x7b\"active\":true\x7d" else "\x7b\"active\":false\x7d"

/-- The method `NotificationSource::SetActive` (lines 432-445). -/
def SetActive (w : World) (this : Nat) (active : Bool) : World :=
  let w := NotificationSource.ExecuteOnNotification w this (NotificationFunc.active active)
  ExecuteOnNotification w
    (NotificationFunc.jsEvent "obsSourceActiveChanged" (activeJson active)) (some this)

/-- The callback `info.activate` (plugin, lines 455-460):
`if (bs->restart) bs->Refresh(); bs->SetActive(true);`. -/
def info_activate (w : World) (this : Nat) : World :=
  let w := if (w.src this).restart then Refresh w this else w
  SetActive w this true

/-- The callback `info.deactivate` (plugin, lines 461-463). -/
def info_deactivate (w : World) (this : Nat) : World :=
  SetActive w this false

/-! ## The host entry points that dispatch events -/

/-- The enumerators of `enum obs_frontend_event` that `handle_obs_frontend_event` has a case
for; `other` stands for every enumerator that falls to `default:`. -/
inductive obs_frontend_event where
  | STREAMING_STARTING | STREAMING_STARTED | STREAMING_STOPPING | STREAMING_STOPPED
  | RECORDING_STARTING | RECORDING_STARTED | RECORDING_PAUSED | RECORDING_UNPAUSED
  | RECORDING_STOPPING | RECORDING_STOPPED
  | REPLAY_BUFFER_STARTING | REPLAY_BUFFER_STARTED | REPLAY_BUFFER_SAVED
  | REPLAY_BUFFER_STOPPING | REPLAY_BUFFER_STOPPED
  | VIRTUALCAM_STARTED | VIRTUALCAM_STOPPED
  | SCENE_CHANGED | SCENE_LIST_CHANGED | TRANSITION_CHANGED | TRANSITION_LIST_CHANGED
  | EXIT | other
deriving DecidableEq, Repr

/-- What the frontend answers to the queries of `handle_obs_frontend_event`, already
serialised by `json.dump()`: the current scene and the current transition are `none` when
the frontend has none or it has no name (the handler then breaks without dispatching). -/
structure Frontend where
  current_scene : Option String
  scenes : String
  current_transition : Option String
  transitions : String

/-- The arguments of one call of `DispatchJSEvent`; `notification = none` is the null target,
a broadcast. -/
structure Dispatch where
  eventName : String
  jsonString : String
  notification : Option Nat
deriving DecidableEq, Repr

/-- The function `handle_obs_frontend_event` (plugin, lines 472-591): the call of
`DispatchJSEvent` it makes, if any. -/
def handle_obs_frontend_event (event : obs_frontend_event) (fe : Frontend) : Option Dispatch :=
  match event with
  | obs_frontend_event.STREAMING_STARTING => some ⟨"obsStreamingStarting", "null", none⟩
  | obs_frontend_event.STREAMING_STARTED => some ⟨"obsStreamingStarted", "null", none⟩
  | obs_frontend_event.STREAMING_STOPPING => some ⟨"obsStreamingStopping", "null", none⟩
  | obs_frontend_event.STREAMING_STOPPED => some ⟨"obsStreamingStopped", "null", none⟩
  | obs_frontend_event.RECORDING_STARTING => some ⟨"obsRecordingStarting", "null", none⟩
  | obs_frontend_event.RECORDING_STARTED => some ⟨"obsRecordingStarted", "null", none⟩
  | obs_frontend_event.RECORDING_PAUSED => some ⟨"obsRecordingPaused", "null", none⟩
  | obs_frontend_event.RECORDING_UNPAUSED => some ⟨"obsRecordingUnpaused", "null", none⟩
  | obs_frontend_event.RECORDING_STOPPING => some ⟨"obsRecordingStopping", "null", none⟩
  | obs_frontend_event.RECORDING_STOPPED => some ⟨"obsRecordingStopped", "null", none⟩
  | obs_frontend_event.REPLAY_BUFFER_STARTING => some ⟨"obsReplaybufferStarting", "null", none⟩
  | obs_frontend_event.REPLAY_BUFFER_STARTED => some ⟨"obsReplaybufferStarted", "null", none⟩
  | obs_frontend_event.REPLAY_BUFFER_SAVED => some ⟨"obsReplaybufferSaved", "null", none⟩
  | obs_frontend_event.REPLAY_BUFFER_STOPPING => some ⟨"obsReplaybufferStopping", "null", none⟩
  | obs_frontend_event.REPLAY_BUFFER_STOPPED => some ⟨"obsReplaybufferStopped", "null", none⟩
  | obs_frontend_event.VIRTUALCAM_STARTED => some ⟨"obsVirtualcamStarted", "null", none⟩
  | obs_frontend_event.VIRTUALCAM_STOPPED => some ⟨"obsVirtualcamStopped", "null", none⟩
  | obs_frontend_event.SCENE_CHANGED =>
    fe.current_scene.map (fun json => ⟨"obsSceneChanged", json, none⟩)
  | obs_frontend_event.SCENE_LIST_CHANGED => some ⟨"obsSceneListChanged", fe.scenes, none⟩
  | obs_frontend_event.TRANSITION_CHANGED =>
    fe.current_transition.map (fun json => ⟨"obsTransitionChanged", json, none⟩)
  | obs_frontend_event.TRANSITION_LIST_CHANGED =>
    some ⟨"obsTransitionListChanged", fe.transitions, none⟩
  | obs_frontend_event.EXIT => some ⟨"obsExit", "null", none⟩
  | obs_frontend_event.other => none

/-- The procedure handler `jsEventFunction` of source `p` (lines 84-92); an absent argument
of the call data (`calldata_string` returning null) is `none`. -/
def jsEventFunction (p : Nat) (eventName jsonString : Option String) : Option Dispatch :=
  match eventName with
  | none => none
  | some name => some ⟨name, jsonString.getD "null", some p⟩

/-- The websocket request handler `emit_event_request_cb` (plugin, lines 716-725);
`event_data` is the JSON text of the object of that name, `none` when the request has none. -/
def emit_event_request_cb (event_name : Option String) (event_data : Option String) :
    Option Dispatch :=
  match event_name with
  | none => none
  | some name => some ⟨name, event_data.getD "\x7b\x7d", none⟩

/-- An entry point carried out: the call of `DispatchJSEvent` it makes, if it makes one. -/
def dispatch (fuel : Nat) (w : World) : Option Dispatch → Option World
  | none => some w
  | some d => DispatchJSEvent fuel w d.eventName d.jsonString d.notification

/-- What a `NotificationFunc` does to the engine when it runs on the handle `b`. -/
def applyFunc (w : World) (b : Nat) : NotificationFunc → World
  | NotificationFunc.ActuallyCloseNotification =>
    { w with engine :=
        { w.engine with
          client_bs := fun j => if j = b then none else w.engine.client_bs j
          calls := w.engine.calls ++ [(b, BrowserCall.WasHidden true), (b, BrowserCall.CloseBrowser)]
          live := w.engine.live.erase b } }
  | NotificationFunc.jsEvent eventName jsonString =>
    { w with engine :=
        { w.engine with
          calls := w.engine.calls ++
            [(b, BrowserCall.SendProcessMessage "DispatchJSEvent"
              [Arg.str eventName, Arg.str jsonString])] } }
  | NotificationFunc.resize this =>
    { w with engine :=
        { w.engine with
          calls := w.engine.calls ++
            [(b, BrowserCall.OnAutoResize (w.src this).width (w.src this).height),
             (b, BrowserCall.WasResized), (b, BrowserCall.Invalidate)] } }
  | NotificationFunc.visibility showing =>
    { w with engine :=
        { w.engine with
          calls := w.engine.calls ++
            [(b, BrowserCall.SendProcessMessage "Visibility" [Arg.bool showing])] } }
  | NotificationFunc.mouseClick event type mouse_up click_count =>
    { w with engine :=
        { w.engine with
          calls := w.engine.calls ++
            [(b, BrowserCall.SendMouseClickEvent event type mouse_up click_count)] } }
  | NotificationFunc.mouseMove event mouse_leave =>
    { w with engine :=
        { w.engine with
          calls := w.engine.calls ++ [(b, BrowserCall.SendMouseMoveEvent event mouse_leave)] } }
  | NotificationFunc.mouseWheel event x_delta y_delta =>
    { w with engine :=
        { w.engine with
          calls := w.engine.calls ++ [(b, BrowserCall.SendMouseWheelEvent event x_delta y_delta)] } }
  | NotificationFunc.focus focus =>
    { w with engine :=
        { w.engine with calls := w.engine.calls ++ [(b, BrowserCall.SetFocus focus)] } }
  | NotificationFunc.keyClick event key_up =>
    { w with engine :=
        { w.engine with
          calls := w.engine.calls ++
            [(b, BrowserCall.SendKeyEvent
                (if key_up then KeyEventType.KEYEVENT_KEYUP
                 else KeyEventType.KEYEVENT_RAWKEYDOWN))] ++
            (if event.text ≠ "" ∧ key_up = false then
              [(b, BrowserCall.SendKeyEvent KeyEventType.KEYEVENT_CHAR)]
             else []) } }
  | NotificationFunc.active active =>
    { w with engine :=
        { w.engine with
          calls := w.engine.calls ++
            [(b, BrowserCall.SendProcessMessage "Active" [Arg.bool active])] } }
  | NotificationFunc.reload =>
    { w with engine :=
        { w.engine with calls := w.engine.calls ++ [(b, BrowserCall.ReloadIgnoreCache)] } }

/-- The closure of `CreateNotification` (lines 180-249) run on the engine's thread:
`CreateBrowserSync` yields a fresh browser whose client refers back to `this`, the handle
is stored with `SetNotification`, and the visibility is sent. -/
def runCreate (cfg : Build) (w : World) (this : Nat) : World :=
  let b := w.engine.created
  let e : Engine :=
    { w.engine with
      created := b + 1
      live := b :: w.engine.live
      created_for := fun j => if j = b then this else w.engine.created_for j
      client_bs := fun j => if j = b then some this else w.engine.client_bs j }
  let w : World := SetNotification { w with engine := e } this (some b)
  let w : World :=
    if (w.src this).reroute_audio then
      { w with engine := { w.engine with calls := w.engine.calls ++ [(b, BrowserCall.SetAudioMuted true)] } }
    else w
  let w : World :=
    if w.showing this then w.setSrc this { w.src this with is_showing := true } else w
  let s := w.src this
  { w with engine := SendNotificationVisibility cfg w.engine s.cefNotification s.is_showing }

/-- One task run on the engine's thread. For `deleteThis` this is the destructor
`~NotificationSource` (lines 126-130), which closes the browser the source still holds,
followed by the release of the instance's memory. -/
def runTask (cfg : Build) (w : World) : Task → World
  | Task.onNotification b func => applyFunc w b func
  | Task.CreateNotification this => runCreate cfg w this
  | Task.ClearAudioStreams _ => w
  | Task.deleteThis this =>
    let w :=
      match (w.src this).cefNotification with
      | some b => applyFunc w b NotificationFunc.ActuallyCloseNotification
      | none => w
    { w with freed := this :: w.freed }

/-- The engine's thread runs the oldest queued task, if there is one. -/
def runNext (cfg : Build) (w : World) : World :=
  match w.queue with
  | [] => w
  | task :: rest => runTask cfg { w with queue := rest } task

/-- The tasks of a list run in order. -/
def runTasks (cfg : Build) (w : World) : List Task → World
  | [] => w
  | task :: rest => runTasks cfg (runTask cfg w task) rest

/-! ## Observations used by the claims -/

/-- Append tasks to the queue of the engine's thread. -/
def World.enqueue (w : World) (tasks : List Task) : World :=
  { w with queue := w.queue ++ tasks }

/-- The task, if any, that `ExecuteOnNotification(func, true)` on source `x` gets queued:
none when the source has no browser or the bridge rejects the submission. -/
def taskFor (w : World) (func : NotificationFunc) (x : Nat) : List Task :=
  match (w.src x).cefNotification with
  | some b => if w.accepting then [Task.onNotification b func] else []
  | none => []

/-- A task that tears a browser down. -/
def Task.isTeardown : Task → Bool
  | Task.onNotification _ NotificationFunc.ActuallyCloseNotification => true
  | _ => false

/-- A task that creates a browser. -/
def Task.isCreate : Task → Bool
  | Task.CreateNotification _ => true
  | _ => false

/-- A source right after construction, before its first `Update`: no browser, no pending
creation. (The member initialisers are in a header that is not under `src/`; the claims that
quantify over source states do not depend on them.) -/
def NotificationSource.fresh : NotificationSource :=
  { destroying := false, is_showing := false, is_local := false, width := 0, height := 0,
    fps_custom := false, fps := 0, shutdown_on_invisible := false, restart := false,
    reroute_audio := false, webpage_control_level := 0, css := "", url := [],
    create_notification := false, first_update := true, cefNotification := none }

/-- An engine that has not created any browser. -/
def Engine.init : Engine :=
  { created := 0, live := [], created_for := fun _ => 0, client_bs := fun _ => none, calls := [] }

/-- The plugin after the given registry history, with fresh sources, an idle engine that
accepts tasks, and a host that reports every source as showing. -/
def World.start (h : List RegCall) : World :=
  { reg := Registry.run h, src := fun _ => NotificationSource.fresh, showing := fun _ => true,
    audio_active := fun _ => false, accepting := true, queue := [], engine := Engine.init,
    freed := [] }

/-- A settings object with the defaults of `notification_source_get_defaults` and the given
address. -/
def Settings.ofUrl (url : List Char) : Settings :=
  { is_local_file := false, width := 800, height := 600, fps_custom := false, fps := 30,
    shutdown := false, restart_when_active := false, css := "", url := url, local_file := [],
    reroute_audio := false, webpage_control_level := 1 }

/-- A step of an interleaving: a host callback on a source, or the engine's thread running
the oldest queued task. -/
inductive Action where
  | Update (this : Nat) (settings : Option Settings) : Action
  | SetShowing (this : Nat) (showing : Bool) : Action
  | Tick (this : Nat) : Action
  | runNext : Action

/-- One step of an interleaving. -/
def perform (cfg : Build) (w : World) : Action → World
  | Action.Update this settings => Update cfg w this settings
  | Action.SetShowing this showing => SetShowing cfg w this showing
  | Action.Tick this => Tick w this
  | Action.runNext => runNext cfg w

/-- An interleaving, performed in order. -/
def performAll (cfg : Build) (w : World) : List Action → World
  | [] => w
  | a :: rest => performAll cfg (perform cfg w a) rest

/-- The browsers created for source `this` that are live (created and not yet closed). -/
def liveFor (w : World) (this : Nat) : List Nat :=
  w.engine.live.filter (fun b => decide (w.engine.created_for b = this))

/-- The browsers a broadcast reaches: those of the visited sources that have one, in
visiting order; none when the bridge rejects submissions. -/
def reached (w : World) (l : List Nat) : List Nat :=
  if w.accepting then l.filterMap (fun x => (w.src x).cefNotification) else []

/-- The derived values agree with the current configuration in everything but, possibly,
width and height. -/
def onlySizeDiffers (d : Derived) (s : NotificationSource) : Prop :=
  d.n_is_local = s.is_local ∧ d.n_fps_custom = s.fps_custom ∧ d.n_fps = s.fps ∧
  d.n_shutdown = s.shutdown_on_invisible ∧ d.n_restart = s.restart ∧ d.n_css = s.css ∧
  d.n_url = s.url ∧ d.n_reroute = s.reroute_audio ∧
  d.n_webpage_control_level = s.webpage_control_level

/-- The derived values change the URL, the local-file mode, the frame-rate mode, the
audio-reroute flag, the interaction level, the injected style or the teardown-on-hide flag. -/
def substantiveChange (d : Derived) (s : NotificationSource) : Prop :=
  d.n_url ≠ s.url ∨ d.n_is_local ≠ s.is_local ∨ d.n_fps_custom ≠ s.fps_custom ∨
  d.n_reroute ≠ s.reroute_audio ∨ d.n_webpage_control_level ≠ s.webpage_control_level ∨
  d.n_css ≠ s.css ∨ d.n_shutdown ≠ s.shutdown_on_invisible

instance (d : Derived) (s : NotificationSource) : Decidable (onlySizeDiffers d s) := by
  unfold onlySizeDiffers
  exact inferInstance

instance (d : Derived) (s : NotificationSource) : Decidable (substantiveChange d s) := by
  unfold substantiveChange
  exact inferInstance

/-- As `World.start`, with a host that reports every source as not showing. -/
def World.startHidden (h : List RegCall) : World :=
  { World.start h with showing := fun _ => false }

/-- The build used in the examples: Windows, file URLs enabled, a recent engine. -/
def Build.windows : Build :=
  { win32 := true, local_file_url_scheme := true, chrome_before_4103 := false, washidden := false }

/-- The bridge from now on rejects submissions (the engine has begun to shut down, or has
not started yet). -/
def World.rejecting (w : World) : World :=
  { w with accepting := false }

/-- Source 1, registered and configured with the defaults, holding the live browser 0; the
queue is empty and the bridge accepts. -/
def World.live : World :=
  performAll Build.windows (World.start [RegCall.construct 1])
    [Action.Update 1 (some (Settings.ofUrl "https://a".toList)), Action.Tick 1, Action.runNext]

/-- As `World.live`, with the source in teardown-on-hide mode. -/
def World.liveTeardownOnHide : World :=
  performAll Build.windows (World.start [RegCall.construct 1])
    [Action.Update 1 (some { Settings.ofUrl "https://a".toList with shutdown := true }),
     Action.Tick 1, Action.runNext]

/-- Source 1, registered and configured in teardown-on-hide mode while the host reports it
as not showing: no browser, no pending creation. -/
def World.hiddenTeardownOnHide : World :=
  performAll Build.windows (World.startHidden [RegCall.construct 1])
    [Action.Update 1 (some { Settings.ofUrl "https://a".toList with shutdown := true })]

/-- The frontend events for which `handle_obs_frontend_event` has no data to send. -/
def payloadLess (event : obs_frontend_event) : Bool :=
  match event with
  | obs_frontend_event.SCENE_CHANGED => false
  | obs_frontend_event.SCENE_LIST_CHANGED => false
  | obs_frontend_event.TRANSITION_CHANGED => false
  | obs_frontend_event.TRANSITION_LIST_CHANGED => false
  | obs_frontend_event.other => false
  | _ => true

/-- The bridge accepts submissions (again). -/
def World.accepts (w : World) : World :=
  { w with accepting := true }

/-- Source 1 right after its first `Update` while the bridge rejects submissions: the
creation of its browser is pending. -/
def World.pendingRejecting : World :=
  (Update Build.windows (World.start [RegCall.construct 1]) 1
    (some (Settings.ofUrl "https://a".toList))).rejecting

/-- Whether `q` occurs in `s` at position `j`. -/
def occursAt (q s : List Char) (j : Nat) : Bool :=
  q.isPrefixOf (s.drop j)

/-! ## Hardware acceleration (Windows) -/

/-- The test `wstrstri(str, find) != nullptr` of libobs (`util/dstr.h`, outside this
repository): whether `find` occurs in `str`, compared character by character up to ASCII
case. -/
def wstrstri (str find_ : List Char) : Bool :=
  (find (find_.map toupper) (str.map toupper)).isSome

/-- The table `blacklisted_devices` (plugin, line 626), without its null terminator. -/
def blacklisted_devices : List (List Char) :=
  ["Intel".toList, "Microsoft".toList, "Radeon HD 8850M".toList, "Radeon HD 7660".toList]

/-- The function `is_intel` (plugin, lines 628-631). -/
def is_intel (str : List Char) : Bool :=
  wstrstri str "Intel".toList

/-- The loop `while (*device) { if (wstrstri(deviceId, *device)) { hwaccel = false; break; }
device++; }` (plugin, lines 640-652): the value of `hwaccel` after it. -/
def scanBlacklist (deviceId : List Char) : List (List Char) → Bool → Bool
  | [], hwaccel => hwaccel
  | device :: rest, hwaccel =>
    if wstrstri deviceId device then false else scanBlacklist deviceId rest hwaccel

/-- The function `check_hwaccel_support` of the Windows build (plugin, lines 633-654): the
value of the global `hwaccel` after the call, from the globals `adapterCount`, `deviceId`
and `hwaccel` before it. -/
def check_hwaccel_support (adapterCount : Int) (deviceId : List Char) (hwaccel : Bool) : Bool :=
  if adapterCount ≥ 2 || !is_intel deviceId then scanBlacklist deviceId blacklisted_devices hwaccel
  else hwaccel

/-- The description contains the name, up to ASCII case. -/
def containsNoCase (description name : List Char) : Prop :=
  name.map toupper <:+: description.map toupper

/-- The description contains one of the blacklisted device names, up to ASCII case. -/
def isBlacklisted (description : List Char) : Prop :=
  ∃ name, name ∈ blacklisted_devices ∧ containsNoCase description name

/-! ## Further observations -/

/-- The value of `n_url` when line 538 of `Update` is reached, before the rewrite of
`http://absolute/`. -/
def urlBeforeRewrite (cfg : Build) (settings : Settings) : List Char :=
  let n_url := if settings.is_local_file then settings.local_file else settings.url
  if settings.is_local_file && !n_url.isEmpty then localFileUrl cfg n_url else n_url

/-- The string begins with the characters of `pat`, up to ASCII case, and goes on with
`rest`. -/
def beginsWithNoCase (pat s rest : List Char) : Prop :=
  ∃ head, s = head ++ rest ∧ head.length = pat.length ∧ head.map toupper = pat.map toupper

/-- Source 1 after the interleaving of `C10_two_live_browsers`, a further `Update` that
changes the URL and the close it queues: browser 1 is closed, browser 0 is still live, and
the source holds no handle. -/
def World.orphaned : World :=
  performAll Build.windows (World.start [RegCall.construct 1])
    [Action.Update 1 (some (Settings.ofUrl "https://a".toList)), Action.Tick 1,
     Action.Update 1 (some (Settings.ofUrl "https://b".toList)), Action.Tick 1,
     Action.runNext, Action.runNext,
     Action.Update 1 (some (Settings.ofUrl "https://c".toList)), Action.runNext]

/-- A browser whose client still refers back to an instance whose memory has been released:
a callback of that browser would reach the freed instance. -/
def danglingBackReference (w : World) (b : Nat) : Bool :=
  decide (b ∈ w.engine.live) &&
    (match w.engine.client_bs b with
     | some x => decide (x ∈ w.freed)
     | none => false)

/-- Source 1 while the host reports it as not showing, after an `Update` without
teardown-on-hide and a second `Update` that turns teardown-on-hide on; no `Tick` has run. -/
def World.twiceUpdatedHidden : World :=
  performAll Build.windows (World.startHidden [RegCall.construct 1])
    [Action.Update 1 (some (Settings.ofUrl "https://a".toList)),
     Action.Update 1 (some { Settings.ofUrl "https://a".toList with shutdown := true })]

/-! ## The shape of the file URL -/

/-- What a character of a local file path is to become in the URL: a separator becomes `/`,
any other character its percent-encoding. -/
def urlPiece (c : Char) : List Char :=
  if c = '\\' ∨ c = '/' then ['/'] else encodeChar c

/-- Proof device: the output of `CefURIEncode` for one character, cut into single
characters and `%XX` escapes. -/
def tokens (c : Char) : List (List Char) :=
  if isUnreserved c then [[c]] else (utf8Bytes c.toNat).map pctByte

/-- Proof device: a single character other than `%`, or an escape `%ab`. -/
def IsTok (k : List Char) : Prop :=
  (∃ c, k = [c] ∧ c ≠ '%') ∨ (∃ a b, k = ['%', a, b] ∧ a ≠ '%' ∧ b ≠ '%')

/-- Proof device: `find` on a token list. -/
def findTok (pat : List Char) : List (List Char) → Option Nat
  | [] => none
  | k :: ks => if k = pat then some 0 else (findTok pat ks).map (fun i => i + k.length)

/-- Proof device: the first token equal to `pat` replaced by `r`. -/
def replaceFirstTok (pat r : List Char) : List (List Char) → List (List Char)
  | [] => []
  | k :: ks => if k = pat then r :: ks else k :: replaceFirstTok pat r ks

/-- Proof device: what a replacement loop does to a token. -/
def slashFor (pat : List Char) (k : List Char) : List Char :=
  if k = pat then ['/'] else k

/-- A settings object in local-file mode with the given path (other keys as in
`Settings.ofUrl`). -/
def Settings.ofLocalFile (path : List Char) : Settings :=
  { Settings.ofUrl [] with is_local_file := true, local_file := path }

/-! ## Theorems -/

/-! ### Registry: how the two calls act on memory -/

theorem load_construct_head (s : Registry) (x : Nat) :
    (s.construct x).first_notification = some x := by
  unfold Registry.construct
  rfl

theorem next_construct (s : Registry) (x z : Nat) :
    (s.construct x).next z = if z = x then s.first_notification else s.next z := by
  unfold Registry.construct
  cases h : s.first_notification <;> simp [h]

theorem pprev_construct (s : Registry) (x z : Nat) :
    (s.construct x).p_prev_next z =
      if s.first_notification = some z then Loc.nextOf x
      else if z = x then Loc.head else s.p_prev_next z := by
  unfold Registry.construct
  cases h : s.first_notification with
  | none => simp [h]
  | some f =>
    by_cases hz : z = f
    · subst hz; simp [h]
    · have hne : ¬ f = z := fun e => hz e.symm
      simp [h, hz, hne]

theorem pprev_store (s : Registry) (l : Loc) (v : Option Nat) :
    (s.store l v).p_prev_next = s.p_prev_next := by
  cases l <;> rfl

theorem load_store (s : Registry) (l l' : Loc) (v : Option Nat) :
    (s.store l v).load l' = if l' = l then v else s.load l' := by
  cases l <;> cases l' <;> simp [Registry.store, Registry.load]

theorem pprev_Destroy (s : Registry) (x z : Nat) :
    (s.Destroy x).p_prev_next z =
      if s.next x = some z then s.p_prev_next x else s.p_prev_next z := by
  unfold Registry.Destroy
  simp only [pprev_store]
  cases h : s.next x with
  | none => simp
  | some n =>
    by_cases hz : z = n
    · subst hz; simp
    · have hne : ¬ n = z := fun e => hz e.symm
      simp [hz, hne]

theorem load_Destroy (s : Registry) (x : Nat) (l : Loc) :
    (s.Destroy x).load l = if l = s.p_prev_next x then s.next x else s.load l := by
  unfold Registry.Destroy
  simp only [load_store]
  cases h : s.next x with
  | none => simp [h]
  | some n =>
    have hp : (if x = n then s.p_prev_next x else s.p_prev_next x) = s.p_prev_next x := by
      split <;> rfl
    simp only [hp, h]
    cases l <;> simp [Registry.load]

theorem next_Destroy (s : Registry) (x z : Nat) :
    (s.Destroy x).next z = if s.p_prev_next x = Loc.nextOf z then s.next x else s.next z := by
  have h := load_Destroy s x (Loc.nextOf z)
  simp only [Registry.load] at h
  rw [h]
  by_cases hq : s.p_prev_next x = Loc.nextOf z
  · simp [hq]
  · have hq2 : ¬ Loc.nextOf z = s.p_prev_next x := fun e => hq e.symm
    simp [hq, hq2]

/-! ### Registry: the chain invariant -/

theorem chain_load (s : Registry) (loc : Loc) (l : List Nat) (h : Chain s loc l) :
    s.load loc = l.head? := by
  cases l with
  | nil => exact h
  | cons x xs => exact h.1

theorem walk_of_chain (s : Registry) :
    ∀ (l : List Nat) (loc : Loc) (fuel : Nat), Chain s loc l → l.length ≤ fuel →
      s.walk fuel (s.load loc) = some l := by
  intro l
  induction l with
  | nil =>
    intro loc fuel h _
    have h0 : s.load loc = none := h
    rw [h0]
    cases fuel <;> rfl
  | cons x xs ih =>
    intro loc fuel h hf
    obtain ⟨h1, _, h3⟩ := h
    cases fuel with
    | zero => simp at hf
    | succ n =>
      have hn : xs.length ≤ n := by simpa using hf
      have h4 := ih (Loc.nextOf x) n h3 hn
      simp only [Registry.load] at h4
      rw [h1]
      simp [Registry.walk, h4]

theorem chain_congr (s t : Registry) :
    ∀ (l : List Nat) (loc : Loc), t.load loc = s.load loc →
      (∀ y ∈ l, t.next y = s.next y ∧ t.p_prev_next y = s.p_prev_next y) →
      Chain s loc l → Chain t loc l := by
  intro l
  induction l with
  | nil =>
    intro loc h0 _ h
    have h1 : s.load loc = none := h
    show t.load loc = none
    rw [h0, h1]
  | cons x xs ih =>
    intro loc h0 hall h
    obtain ⟨h1, h2, h3⟩ := h
    have hx := hall x (List.mem_cons_self x xs)
    refine ⟨by rw [h0, h1], by rw [hx.2, h2], ?_⟩
    apply ih (Loc.nextOf x) _ _ h3
    · exact hx.1
    · intro y hy
      exact hall y (List.mem_cons_of_mem x hy)

theorem chain_construct (s : Registry) (l : List Nat) (x : Nat)
    (h : Chain s Loc.head l) (hx : x ∉ l) (hnd : l.Nodup) :
    Chain (s.construct x) Loc.head (x :: l) := by
  have hfirst : s.first_notification = l.head? := chain_load s Loc.head l h
  refine ⟨load_construct_head s x, ?_, ?_⟩
  · rw [pprev_construct]
    have hne : ¬ s.first_notification = some x := by
      rw [hfirst]
      intro e
      exact hx (List.mem_of_mem_head? e)
    simp [hne]
  · cases l with
    | nil =>
      show (s.construct x).load (Loc.nextOf x) = none
      simp only [Registry.load, next_construct]
      simpa using hfirst
    | cons f fs =>
      obtain ⟨h1, _, h3⟩ := h
      have h1f : s.first_notification = some f := h1
      have hxf : x ≠ f := fun e => hx (by simp [e])
      have hffs : f ∉ fs := (List.nodup_cons.mp hnd).1
      refine ⟨?_, ?_, ?_⟩
      · simp [Registry.load, next_construct, h1f]
      · simp [pprev_construct, h1f]
      · apply chain_congr s (s.construct x) fs (Loc.nextOf f) _ _ h3
        · have hfx : ¬ f = x := fun e => hxf e.symm
          simp [Registry.load, next_construct, hfx]
        · intro y hy
          have hyx : ¬ y = x := fun e => hx (by simp [← e, hy])
          have hyf : ¬ f = y := fun e => hffs (by simpa [e] using hy)
          simp [next_construct, pprev_construct, h1f, hyx, hyf]

theorem chain_next (s : Registry) (x : Nat) :
    ∀ (pre : List Nat) (loc : Loc) (post : List Nat), Chain s loc (pre ++ x :: post) →
      s.next x = post.head? := by
  intro pre
  induction pre with
  | nil =>
    intro loc post h
    exact chain_load s (Loc.nextOf x) post h.2.2
  | cons y ys ih =>
    intro loc post h
    exact ih (Loc.nextOf y) post h.2.2

theorem chain_pprev (s : Registry) (x : Nat) :
    ∀ (pre : List Nat) (loc : Loc) (post : List Nat), Chain s loc (pre ++ x :: post) →
      (pre = [] ∧ s.p_prev_next x = loc) ∨ ∃ z ∈ pre, s.p_prev_next x = Loc.nextOf z := by
  intro pre
  induction pre with
  | nil =>
    intro loc post h
    exact Or.inl ⟨rfl, h.2.1⟩
  | cons y ys ih =>
    intro loc post h
    right
    rcases ih (Loc.nextOf y) post h.2.2 with ⟨_, h2⟩ | ⟨z, hz, h2⟩
    · exact ⟨y, List.mem_cons_self y ys, h2⟩
    · exact ⟨z, List.mem_cons_of_mem y hz, h2⟩

theorem chain_Destroy (s : Registry) (x : Nat) :
    ∀ (pre : List Nat) (loc : Loc) (post : List Nat), Chain s loc (pre ++ x :: post) →
      (pre ++ x :: post).Nodup → (∀ z ∈ pre ++ x :: post, loc ≠ Loc.nextOf z) →
      Chain (s.Destroy x) loc (pre ++ post) := by
  intro pre
  induction pre with
  | nil =>
    intro loc post h hnd hloc
    obtain ⟨_, h2, h3⟩ := h
    have hnx : s.next x = post.head? := chain_load s (Loc.nextOf x) post h3
    cases post with
    | nil =>
      show (s.Destroy x).load loc = none
      rw [load_Destroy, h2]
      simpa using hnx
    | cons n ns =>
      have hnx2 : s.next x = some n := by simpa using hnx
      obtain ⟨_, _, h6⟩ := h3
      have hnd2 : (x :: n :: ns).Nodup := hnd
      have hnns : n ∉ ns := (List.nodup_cons.mp (List.nodup_cons.mp hnd2).2).1
      refine ⟨?_, ?_, ?_⟩
      · rw [load_Destroy, h2]; simp [hnx2]
      · rw [pprev_Destroy, h2]; simp [hnx2]
      · apply chain_congr s (s.Destroy x) ns (Loc.nextOf n) _ _ h6
        · rw [load_Destroy, h2]
          have hne : ¬ Loc.nextOf n = loc := fun e => hloc n (by simp) e.symm
          simp [hne]
        · intro y hy
          have hne : ¬ loc = Loc.nextOf y := hloc y (by simp [hy])
          have hny : ¬ n = y := fun e => hnns (by simpa [e] using hy)
          rw [next_Destroy, pprev_Destroy, h2, hnx2]
          simp [hne, hny]
  | cons y ys ih =>
    intro loc post h hnd hloc
    obtain ⟨h1, h2, h3⟩ := h
    have hnd2 : (y :: (ys ++ x :: post)).Nodup := hnd
    have hy : y ∉ ys ++ x :: post := (List.nodup_cons.mp hnd2).1
    have hndt : (ys ++ x :: post).Nodup := (List.nodup_cons.mp hnd2).2
    have hnx : s.next x = post.head? := chain_next s x ys (Loc.nextOf y) post h3
    have hq : ∃ z ∈ y :: ys, s.p_prev_next x = Loc.nextOf z := by
      rcases chain_pprev s x ys (Loc.nextOf y) post h3 with ⟨_, e⟩ | ⟨z, hz, e⟩
      · exact ⟨y, List.mem_cons_self y ys, e⟩
      · exact ⟨z, List.mem_cons_of_mem y hz, e⟩
    obtain ⟨z, hz, hqz⟩ := hq
    have hzl : z ∈ (y :: ys) ++ x :: post := List.mem_append_left _ hz
    have hlocq : ¬ loc = s.p_prev_next x := by
      rw [hqz]; exact hloc z hzl
    have hnxy : ¬ s.next x = some y := by
      rw [hnx]
      intro e
      exact hy (List.mem_append_right _ (List.mem_cons_of_mem x (List.mem_of_mem_head? e)))
    refine ⟨?_, ?_, ?_⟩
    · rw [load_Destroy]; simp [hlocq, h1]
    · rw [pprev_Destroy]; simp [hnxy, h2]
    · apply ih (Loc.nextOf y) post h3 hndt
      intro w hw e
      have : y = w := by injection e
      exact hy (this ▸ hw)

theorem erase_middle (x : Nat) (pre post : List Nat) (h : (pre ++ x :: post).Nodup) :
    (pre ++ x :: post).erase x = pre ++ post := by
  have hx : x ∉ pre := by
    intro hmem
    have := List.nodup_append.mp h
    exact this.2.2 hmem (List.mem_cons_self x post)
  rw [List.erase_append_right _ hx, List.erase_cons_head]

/-- After every admissible history the link fields describe the list `expected`, which has
no duplicates and holds exactly the registered instances. -/
theorem run_chain : ∀ (h : List RegCall), admissible h = true →
    Chain (Registry.run h) Loc.head (expected h) ∧ (expected h).Nodup ∧
      ∀ x, x ∈ expected h ↔ registered x h = true := by
  intro h
  induction h with
  | nil =>
    intro _
    refine ⟨rfl, List.nodup_nil, ?_⟩
    intro x
    simp [expected, registered]
  | cons c past ih =>
    intro hadm
    cases c with
    | construct y =>
      simp only [admissible, Bool.and_eq_true, Bool.not_eq_true'] at hadm
      obtain ⟨hc, hnd, hmem⟩ := ih hadm.1
      have hy : y ∉ expected past := by
        intro hin
        have := (hmem y).mp hin
        rw [hadm.2] at this
        exact Bool.noConfusion this
      refine ⟨chain_construct _ _ y hc hy hnd, List.nodup_cons.mpr ⟨hy, hnd⟩, ?_⟩
      intro x
      by_cases hyx : y = x
      · subst hyx; simp [expected, registered]
      · have hxy : ¬ x = y := fun e => hyx e.symm
        simp [expected, registered, hyx, hxy, hmem x]
    | Destroy y =>
      simp only [admissible, Bool.and_eq_true] at hadm
      obtain ⟨hc, hnd, hmem⟩ := ih hadm.1
      have hy : y ∈ expected past := (hmem y).mpr hadm.2
      obtain ⟨pre, post, hsplit⟩ := List.append_of_mem hy
      have hnd2 : (pre ++ y :: post).Nodup := hsplit ▸ hnd
      have herase : (expected past).erase y = pre ++ post := by
        rw [hsplit]; exact erase_middle y pre post hnd2
      refine ⟨?_, hnd.erase y, ?_⟩
      · show Chain ((Registry.run past).Destroy y) Loc.head ((expected past).erase y)
        rw [herase]
        apply chain_Destroy _ y pre Loc.head post (hsplit ▸ hc) hnd2
        intro z _ e
        exact Loc.noConfusion e
      · intro x
        show x ∈ (expected past).erase y ↔ registered x (RegCall.Destroy y :: past) = true
        rw [hnd.mem_erase_iff]
        by_cases hyx : y = x
        · subst hyx; simp [registered]
        · have hxy : ¬ x = y := fun e => hyx e.symm
          simp [registered, hyx, hxy, hmem x]

theorem expected_length_le : ∀ (h : List RegCall), (expected h).length ≤ h.length := by
  intro h
  induction h with
  | nil => simp [expected]
  | cons c past ih =>
    cases c with
    | construct y => simpa [expected] using ih
    | Destroy y =>
      have := List.length_erase_le y (expected past)
      simp only [expected, List.length_cons]
      omega

theorem traversal_run (h : List RegCall) (hadm : admissible h = true) (fuel : Nat)
    (hf : h.length ≤ fuel) : (Registry.run h).traversal fuel = some (expected h) := by
  have hc := (run_chain h hadm).1
  have := walk_of_chain (Registry.run h) (expected h) Loc.head fuel hc
    (le_trans (expected_length_le h) hf)
  simpa [Registry.traversal, Registry.load] using this

/-! ### Registry: the claims -/

/-- C1: after every sequence of constructor and Destroy calls on distinct instances, in
which only registered instances are destroyed, the traversal from first_notification along
next terminates and visits exactly the instances registered and not yet unregistered, each
exactly once. -/
theorem C1_traversal_exactly_registered (h : List RegCall) (hadm : admissible h = true) :
    ∃ l, (∀ fuel, h.length ≤ fuel → (Registry.run h).traversal fuel = some l) ∧
      ∀ x, l.count x = if registered x h = true then 1 else 0 := by
  obtain ⟨_, hnd, hmem⟩ := run_chain h hadm
  refine ⟨expected h, fun fuel hf => traversal_run h hadm fuel hf, ?_⟩
  intro x
  by_cases hx : registered x h = true
  · rw [if_pos hx]
    exact List.count_eq_one_of_mem hnd ((hmem x).mpr hx)
  · rw [if_neg hx]
    exact List.count_eq_zero_of_not_mem (fun hin => hx ((hmem x).mp hin))

theorem C1_witness :
    admissible [RegCall.Destroy 1, RegCall.construct 2, RegCall.construct 1] = true ∧
    ∃ l, (∀ fuel, [RegCall.Destroy 1, RegCall.construct 2, RegCall.construct 1].length ≤ fuel →
        (Registry.run [RegCall.Destroy 1, RegCall.construct 2, RegCall.construct 1]).traversal fuel
          = some l) ∧
      ∀ x, l.count x =
        if registered x [RegCall.Destroy 1, RegCall.construct 2, RegCall.construct 1] = true
        then 1 else 0 :=
  ⟨by decide, C1_traversal_exactly_registered _ (by decide)⟩

/-- C9: in every state reached by constructor and Destroy calls, first_notification is
null or points to a currently registered instance, and it is null exactly when no instance
is registered. -/
theorem C9_head_registered_or_null (h : List RegCall) (hadm : admissible h = true) :
    (∀ x, (Registry.run h).first_notification = some x → registered x h = true) ∧
    ((Registry.run h).first_notification = none ↔ ∀ x, registered x h = false) := by
  obtain ⟨hc, _, hmem⟩ := run_chain h hadm
  have hfirst : (Registry.run h).first_notification = (expected h).head? :=
    chain_load _ Loc.head _ hc
  constructor
  · intro x hx
    rw [hfirst] at hx
    exact (hmem x).mp (List.mem_of_mem_head? hx)
  · rw [hfirst]
    constructor
    · intro hnone x
      have hnil : expected h = [] := List.head?_eq_none_iff.mp hnone
      cases hr : registered x h with
      | false => rfl
      | true =>
        have := (hmem x).mpr hr
        rw [hnil] at this
        exact absurd this (List.not_mem_nil x)
    · intro hall
      cases hl : expected h with
      | nil => rfl
      | cons y ys =>
        have hy : y ∈ expected h := by rw [hl]; exact List.mem_cons_self y ys
        have := (hmem y).mp hy
        rw [hall y] at this
        exact Bool.noConfusion this

theorem C9_witness :
    admissible [RegCall.Destroy 2, RegCall.construct 2, RegCall.construct 1] = true ∧
    ((∀ x, (Registry.run [RegCall.Destroy 2, RegCall.construct 2, RegCall.construct 1]).first_notification
        = some x →
        registered x [RegCall.Destroy 2, RegCall.construct 2, RegCall.construct 1] = true) ∧
    ((Registry.run [RegCall.Destroy 2, RegCall.construct 2, RegCall.construct 1]).first_notification
        = none ↔
      ∀ x, registered x [RegCall.Destroy 2, RegCall.construct 2, RegCall.construct 1] = false)) :=
  ⟨by decide, C9_head_registered_or_null _ (by decide)⟩


/-! ### The dispatcher -/

theorem enqueue_enqueue (w : World) (a b : List Task) :
    (w.enqueue a).enqueue b = w.enqueue (a ++ b) := by
  simp [World.enqueue, List.append_assoc]

theorem enqueue_nil (w : World) : w.enqueue [] = w := by
  simp [World.enqueue]

theorem executeOn_eq_enqueue (w : World) (x : Nat) (func : NotificationFunc) :
    NotificationSource.ExecuteOnNotification w x func = w.enqueue (taskFor w func x) := by
  obtain ⟨reg, src, sh, au, acc, q, e, fr⟩ := w
  simp only [NotificationSource.ExecuteOnNotification, taskFor, QueueCEFTask, World.enqueue]
  cases (src x).cefNotification with
  | none => simp
  | some b => cases acc <;> simp

theorem taskFor_enqueue (w : World) (ts : List Task) (func : NotificationFunc) (x : Nat) :
    taskFor (w.enqueue ts) func x = taskFor w func x := rfl

theorem executeLoop_chain (func : NotificationFunc) :
    ∀ (l : List Nat) (w : World) (loc : Loc) (fuel : Nat), Chain w.reg loc l → l.length ≤ fuel →
      executeLoop func fuel w (w.reg.load loc) = some (w.enqueue (l.flatMap (taskFor w func))) := by
  intro l
  induction l with
  | nil =>
    intro w loc fuel h _
    have h0 : w.reg.load loc = none := h
    rw [h0]
    cases fuel <;> simp [executeLoop, enqueue_nil]
  | cons x xs ih =>
    intro w loc fuel h hf
    obtain ⟨h1, _, h3⟩ := h
    cases fuel with
    | zero => simp at hf
    | succ n =>
      have hn : xs.length ≤ n := by simpa using hf
      rw [h1]
      simp only [executeLoop, executeOn_eq_enqueue]
      have h4 := ih (w.enqueue (taskFor w func x)) (Loc.nextOf x) n h3 hn
      simp only [Registry.load] at h4
      have hreg : (w.enqueue (taskFor w func x)).reg = w.reg := rfl
      rw [hreg] at h4 ⊢
      rw [h4, enqueue_enqueue]
      rfl

/-- C8: a broadcast visits the registered sources most recently registered first:
registering x makes the traversal x followed by the previous traversal, unregistering x
leaves the remaining sources in their previous relative order, and the broadcast loop of
ExecuteOnAllNotifications terminates and runs the per-source call in exactly this order. -/
theorem C8_traversal_order (h : List RegCall) (hadm : admissible h = true) (x : Nat) :
    ∃ l, (Registry.run h).traversal h.length = some l ∧
      (registered x h = false →
        (Registry.run (RegCall.construct x :: h)).traversal (h.length + 1) = some (x :: l)) ∧
      (registered x h = true →
        (Registry.run (RegCall.Destroy x :: h)).traversal (h.length + 1)
          = some (l.filter (fun y => y ≠ x))) ∧
      (∀ (w : World) (func : NotificationFunc), w.reg = Registry.run h →
        ExecuteOnAllNotifications h.length w func =
          some (w.enqueue (l.flatMap (taskFor w func)))) := by
  obtain ⟨hc, hnd, _⟩ := run_chain h hadm
  refine ⟨expected h, traversal_run h hadm _ (le_refl _), ?_, ?_, ?_⟩
  · intro hx
    have hadm2 : admissible (RegCall.construct x :: h) = true := by
      simp [admissible, hadm, hx]
    exact traversal_run _ hadm2 _ (by simp)
  · intro hx
    have hadm2 : admissible (RegCall.Destroy x :: h) = true := by
      simp [admissible, hadm, hx]
    have := traversal_run _ hadm2 (h.length + 1) (by simp)
    rw [this]
    simp only [expected]
    rw [hnd.erase_eq_filter]
    congr 2
    funext y
    by_cases hyx : y = x <;> simp [hyx]
  · intro w func hreg
    have hc2 : Chain w.reg Loc.head (expected h) := by rw [hreg]; exact hc
    have := executeLoop_chain func (expected h) w Loc.head h.length hc2 (expected_length_le h)
    simpa [ExecuteOnAllNotifications, Registry.load] using this

theorem C8_witness :
    admissible [RegCall.construct 2, RegCall.construct 1] = true ∧
    ∃ l, (Registry.run [RegCall.construct 2, RegCall.construct 1]).traversal
          [RegCall.construct 2, RegCall.construct 1].length = some l ∧
      (registered 3 [RegCall.construct 2, RegCall.construct 1] = false →
        (Registry.run (RegCall.construct 3 :: [RegCall.construct 2, RegCall.construct 1])).traversal
          ([RegCall.construct 2, RegCall.construct 1].length + 1) = some (3 :: l)) ∧
      (registered 3 [RegCall.construct 2, RegCall.construct 1] = true →
        (Registry.run (RegCall.Destroy 3 :: [RegCall.construct 2, RegCall.construct 1])).traversal
          ([RegCall.construct 2, RegCall.construct 1].length + 1)
          = some (l.filter (fun y => y ≠ 3))) ∧
      (∀ (w : World) (func : NotificationFunc),
        w.reg = Registry.run [RegCall.construct 2, RegCall.construct 1] →
        ExecuteOnAllNotifications [RegCall.construct 2, RegCall.construct 1].length w func =
          some (w.enqueue (l.flatMap (taskFor w func)))) :=
  ⟨by decide, C8_traversal_order _ (by decide) 3⟩

theorem runTasks_jsEvent (cfg : Build) (eventName jsonString : String) :
    ∀ (bs : List Nat) (w : World),
      (runTasks cfg w (bs.map (fun b =>
          Task.onNotification b (NotificationFunc.jsEvent eventName jsonString)))).engine.calls =
        w.engine.calls ++ bs.map (fun b =>
          (b, BrowserCall.SendProcessMessage "DispatchJSEvent"
            [Arg.str eventName, Arg.str jsonString])) := by
  intro bs
  induction bs with
  | nil => intro w; simp [runTasks]
  | cons b rest ih =>
    intro w
    simp only [List.map_cons, runTasks, runTask]
    rw [ih]
    simp [applyFunc]

/-- C7: DispatchJSEvent with a target queues at most one task, addressed to the browser of
the target and to nothing else, and changes nothing besides the queue; it queues nothing
when the target has no live browser (or the bridge rejects the task). Running the task
makes exactly one call, the DispatchJSEvent message with the given pair, on that browser. -/
theorem C7_targeted_dispatch (fuel : Nat) (w : World) (eventName jsonString : String)
    (target : Nat) :
    (DispatchJSEvent fuel w eventName jsonString (some target) = some
      (match (w.src target).cefNotification with
       | some b =>
         if w.accepting then
           { w with queue := w.queue ++
              [Task.onNotification b (NotificationFunc.jsEvent eventName jsonString)] }
         else w
       | none => w)) ∧
    ∀ (cfg : Build) (v : World) (b : Nat),
      runTask cfg v (Task.onNotification b (NotificationFunc.jsEvent eventName jsonString)) =
        { v with engine := { v.engine with calls := v.engine.calls ++
            [(b, BrowserCall.SendProcessMessage "DispatchJSEvent"
              [Arg.str eventName, Arg.str jsonString])] } } := by
  constructor
  · simp only [DispatchJSEvent, ExecuteOnNotification,
      NotificationSource.ExecuteOnNotification, QueueCEFTask]
    cases (w.src target).cefNotification with
    | none => rfl
    | some b => cases w.accepting <;> rfl
  · intro cfg v b
    rfl

theorem flatMap_taskFor (w : World) (func : NotificationFunc) (l : List Nat) :
    l.flatMap (taskFor w func) = (reached w l).map (fun b => Task.onNotification b func) := by
  unfold reached
  induction l with
  | nil => cases w.accepting <;> rfl
  | cons x xs ih =>
    rw [List.flatMap_cons, ih]
    unfold taskFor
    cases hb : (w.src x).cefNotification with
    | none => cases hacc : w.accepting <;> simp [List.filterMap_cons, hb]
    | some b => cases hacc : w.accepting <;> simp [List.filterMap_cons, hb]

/-- C2 (as stated, refuted): with one registered source that has no live browser, a
broadcast queues no task and makes no call on any browser: zero sends for N = 1. -/
theorem C2_counterexample :
    admissible [RegCall.construct 1] = true ∧ registered 1 [RegCall.construct 1] = true ∧
    (DispatchJSEvent 1 (World.start [RegCall.construct 1]) "obsExit" "null" none).map
      (fun w => (w.queue, w.engine.calls)) = some ([], []) := by
  decide

/-- C2 (amended): while the registry holds the registered sources, a broadcast
DispatchJSEvent(eventName, jsonString, none) terminates and queues exactly one task per
registered source that has a live browser, in traversal order, none for the others and none
at all when the bridge rejects submissions; running these tasks makes exactly one
DispatchJSEvent send with the identical eventName/jsonString pair on each of those
browsers. -/
theorem C2_broadcast_reaches_live_browsers (cfg : Build) (h : List RegCall)
    (hadm : admissible h = true) (w : World) (hreg : w.reg = Registry.run h)
    (eventName jsonString : String) :
    ∃ l, (∀ x, l.count x = if registered x h = true then 1 else 0) ∧
      DispatchJSEvent h.length w eventName jsonString none =
        some (w.enqueue ((reached w l).map (fun b =>
          Task.onNotification b (NotificationFunc.jsEvent eventName jsonString)))) ∧
      (w.accepting = true → (∀ x, registered x h = true → (w.src x).cefNotification ≠ none) →
        (reached w l).length = l.length) ∧
      ∀ v : World,
        (runTasks cfg v ((reached w l).map (fun b =>
          Task.onNotification b (NotificationFunc.jsEvent eventName jsonString)))).engine.calls =
        v.engine.calls ++ (reached w l).map (fun b =>
          (b, BrowserCall.SendProcessMessage "DispatchJSEvent"
            [Arg.str eventName, Arg.str jsonString])) := by
  obtain ⟨hc, hnd, hmem⟩ := run_chain h hadm
  refine ⟨expected h, ?_, ?_, ?_, ?_⟩
  · intro x
    by_cases hx : registered x h = true
    · rw [if_pos hx]
      exact List.count_eq_one_of_mem hnd ((hmem x).mpr hx)
    · rw [if_neg hx]
      exact List.count_eq_zero_of_not_mem (fun hin => hx ((hmem x).mp hin))
  · have hc2 : Chain w.reg Loc.head (expected h) := by rw [hreg]; exact hc
    have := executeLoop_chain (NotificationFunc.jsEvent eventName jsonString) (expected h) w
      Loc.head h.length hc2 (expected_length_le h)
    rw [flatMap_taskFor] at this
    simpa [DispatchJSEvent, ExecuteOnAllNotifications, Registry.load] using this
  · intro hacc hall
    unfold reached
    rw [if_pos hacc]
    have hsome : ∀ l : List Nat, (∀ x ∈ l, (w.src x).cefNotification ≠ none) →
        (l.filterMap (fun x => (w.src x).cefNotification)).length = l.length := by
      intro l
      induction l with
      | nil => intro _; rfl
      | cons y ys ih =>
        intro hl
        have hy := hl y (List.mem_cons_self y ys)
        cases hb : (w.src y).cefNotification with
        | none => exact absurd hb hy
        | some b =>
          rw [List.filterMap_cons, hb]
          simp only [List.length_cons]
          rw [ih (fun x hx => hl x (List.mem_cons_of_mem y hx))]
    exact hsome (expected h) (fun x hx => hall x ((hmem x).mp hx))
  · intro v
    exact runTasks_jsEvent cfg eventName jsonString _ v

theorem C2_witness :
    admissible [RegCall.construct 2, RegCall.construct 1] = true ∧
    (performAll Build.windows (World.start [RegCall.construct 2, RegCall.construct 1])
      [Action.Update 1 (some (Settings.ofUrl "https://a".toList)), Action.Tick 1,
       Action.runNext]).reg = Registry.run [RegCall.construct 2, RegCall.construct 1] ∧
    ∃ l, (∀ x, l.count x =
        if registered x [RegCall.construct 2, RegCall.construct 1] = true then 1 else 0) ∧
      DispatchJSEvent [RegCall.construct 2, RegCall.construct 1].length
          (performAll Build.windows (World.start [RegCall.construct 2, RegCall.construct 1])
            [Action.Update 1 (some (Settings.ofUrl "https://a".toList)), Action.Tick 1,
             Action.runNext]) "obsExit" "null" none =
        some ((performAll Build.windows (World.start [RegCall.construct 2, RegCall.construct 1])
            [Action.Update 1 (some (Settings.ofUrl "https://a".toList)), Action.Tick 1,
             Action.runNext]).enqueue
          ((reached (performAll Build.windows (World.start [RegCall.construct 2, RegCall.construct 1])
            [Action.Update 1 (some (Settings.ofUrl "https://a".toList)), Action.Tick 1,
             Action.runNext]) l).map (fun b =>
            Task.onNotification b (NotificationFunc.jsEvent "obsExit" "null")))) ∧
      ((performAll Build.windows (World.start [RegCall.construct 2, RegCall.construct 1])
            [Action.Update 1 (some (Settings.ofUrl "https://a".toList)), Action.Tick 1,
             Action.runNext]).accepting = true →
        (∀ x, registered x [RegCall.construct 2, RegCall.construct 1] = true →
          ((performAll Build.windows (World.start [RegCall.construct 2, RegCall.construct 1])
            [Action.Update 1 (some (Settings.ofUrl "https://a".toList)), Action.Tick 1,
             Action.runNext]).src x).cefNotification ≠ none) →
        (reached (performAll Build.windows (World.start [RegCall.construct 2, RegCall.construct 1])
            [Action.Update 1 (some (Settings.ofUrl "https://a".toList)), Action.Tick 1,
             Action.runNext]) l).length = l.length) ∧
      ∀ v : World,
        (runTasks Build.windows v
          ((reached (performAll Build.windows (World.start [RegCall.construct 2, RegCall.construct 1])
            [Action.Update 1 (some (Settings.ofUrl "https://a".toList)), Action.Tick 1,
             Action.runNext]) l).map (fun b =>
            Task.onNotification b (NotificationFunc.jsEvent "obsExit" "null")))).engine.calls =
        v.engine.calls ++
          (reached (performAll Build.windows (World.start [RegCall.construct 2, RegCall.construct 1])
            [Action.Update 1 (some (Settings.ofUrl "https://a".toList)), Action.Tick 1,
             Action.runNext]) l).map (fun b =>
            (b, BrowserCall.SendProcessMessage "DispatchJSEvent"
              [Arg.str "obsExit", Arg.str "null"])) :=
  ⟨by decide, rfl,
    C2_broadcast_reaches_live_browsers Build.windows
      [RegCall.construct 2, RegCall.construct 1] (by decide)
      (performAll Build.windows (World.start [RegCall.construct 2, RegCall.construct 1])
        [Action.Update 1 (some (Settings.ofUrl "https://a".toList)), Action.Tick 1,
         Action.runNext]) rfl "obsExit" "null"⟩

/-! ### Update and Tick -/

theorem sameButSize_of_onlySizeDiffers (d : Derived) (s : NotificationSource)
    (h : onlySizeDiffers d s) : sameButSize d s = true := by
  obtain ⟨h1, h2, h3, h4, h5, h6, h7, h8, h9⟩ := h
  simp [sameButSize, h1, h2, h3, h4, h5, h6, h7, h8, h9]

theorem sameButSize_false_of_change (d : Derived) (s : NotificationSource)
    (h : substantiveChange d s) : sameButSize d s = false := by
  cases hs : sameButSize d s with
  | false => rfl
  | true =>
    exfalso
    simp only [sameButSize, Bool.and_eq_true, beq_iff_eq] at hs
    obtain ⟨⟨⟨⟨⟨⟨⟨⟨h1, h2⟩, _⟩, h4⟩, _⟩, h6⟩, h7⟩, h8⟩, h9⟩ := hs
    rcases h with h | h | h | h | h | h | h
    · exact h h7
    · exact h h1
    · exact h h2
    · exact h h8
    · exact h h9
    · exact h h6
    · exact h h4

theorem update_resize_eq (cfg : Build) (w : World) (this : Nat) (st : Settings)
    (h : onlySizeDiffers (derive cfg st) (w.src this)) :
    Update cfg w this (some st) =
      if (derive cfg st).n_width = (w.src this).width ∧
          (derive cfg st).n_height = (w.src this).height then w
      else (w.setSrc this { w.src this with width := (derive cfg st).n_width,
                                            height := (derive cfg st).n_height }).enqueue
            (taskFor w (NotificationFunc.resize this) this) := by
  have hs := sameButSize_of_onlySizeDiffers _ _ h
  simp only [Update, hs, if_true]
  split
  · rfl
  · rw [executeOn_eq_enqueue]
    congr 1
    simp [taskFor, World.setSrc]

/-- C3: when the values derived from the settings differ from the current configuration only
in width and/or height, Update tears nothing down and leaves the pending-recreate flag and
the browser handle as they are: the engine is untouched, the queue gains no teardown and no
creation task, the source only gets the new width and height, and the queue gains at most
one task, a resize addressed to the live browser. -/
theorem C3_resize_only_update (cfg : Build) (w : World) (this : Nat) (st : Settings)
    (h : onlySizeDiffers (derive cfg st) (w.src this)) :
    (Update cfg w this (some st)).engine = w.engine ∧
    (Update cfg w this (some st)).reg = w.reg ∧
    (Update cfg w this (some st)).src this =
      { w.src this with width := (derive cfg st).n_width, height := (derive cfg st).n_height } ∧
    ((Update cfg w this (some st)).src this).cefNotification = (w.src this).cefNotification ∧
    ((Update cfg w this (some st)).src this).create_notification =
      (w.src this).create_notification ∧
    (∀ x, x ≠ this → (Update cfg w this (some st)).src x = w.src x) ∧
    ((Update cfg w this (some st)).queue = w.queue ∨
      ∃ b, (w.src this).cefNotification = some b ∧
        (Update cfg w this (some st)).queue =
          w.queue ++ [Task.onNotification b (NotificationFunc.resize this)]) ∧
    (Update cfg w this (some st)).queue.countP Task.isTeardown = w.queue.countP Task.isTeardown ∧
    (Update cfg w this (some st)).queue.countP Task.isCreate = w.queue.countP Task.isCreate := by
  rw [update_resize_eq cfg w this st h]
  by_cases hsz : (derive cfg st).n_width = (w.src this).width ∧
      (derive cfg st).n_height = (w.src this).height
  · rw [if_pos hsz]
    refine ⟨rfl, rfl, ?_, rfl, rfl, fun _ _ => rfl, Or.inl rfl, rfl, rfl⟩
    rw [hsz.1, hsz.2]
  · rw [if_neg hsz]
    have hq : taskFor w (NotificationFunc.resize this) this = [] ∨
        ∃ b, (w.src this).cefNotification = some b ∧
          taskFor w (NotificationFunc.resize this) this =
            [Task.onNotification b (NotificationFunc.resize this)] := by
      unfold taskFor
      cases hb : (w.src this).cefNotification with
      | none => exact Or.inl rfl
      | some b =>
        cases w.accepting with
        | false => exact Or.inl rfl
        | true => exact Or.inr ⟨b, rfl, rfl⟩
    refine ⟨rfl, rfl, ?_, ?_, ?_, ?_, ?_, ?_, ?_⟩
    · simp [World.enqueue, World.setSrc]
    · simp [World.enqueue, World.setSrc]
    · simp [World.enqueue, World.setSrc]
    · intro x hx
      simp [World.enqueue, World.setSrc, hx]
    · rcases hq with hq | ⟨b, hb, hq⟩
      · left; rw [hq]; simp [World.enqueue, World.setSrc]
      · right; exact ⟨b, hb, by rw [hq]; simp [World.enqueue, World.setSrc]⟩
    · rcases hq with hq | ⟨b, _, hq⟩ <;> rw [hq] <;>
        simp [World.enqueue, World.setSrc, List.countP_append, Task.isTeardown]
    · rcases hq with hq | ⟨b, _, hq⟩ <;> rw [hq] <;>
        simp [World.enqueue, World.setSrc, List.countP_append, Task.isCreate]

theorem C3_witness :
    onlySizeDiffers (derive Build.windows { Settings.ofUrl "https://a".toList with width := 1920 })
      ((performAll Build.windows (World.start [RegCall.construct 1])
        [Action.Update 1 (some (Settings.ofUrl "https://a".toList)), Action.Tick 1,
         Action.runNext]).src 1) ∧
    (Update Build.windows (performAll Build.windows (World.start [RegCall.construct 1])
        [Action.Update 1 (some (Settings.ofUrl "https://a".toList)), Action.Tick 1,
         Action.runNext]) 1
      (some { Settings.ofUrl "https://a".toList with width := 1920 })).engine =
      (performAll Build.windows (World.start [RegCall.construct 1])
        [Action.Update 1 (some (Settings.ofUrl "https://a".toList)), Action.Tick 1,
         Action.runNext]).engine :=
  ⟨by decide,
   (C3_resize_only_update Build.windows (performAll Build.windows (World.start [RegCall.construct 1])
        [Action.Update 1 (some (Settings.ofUrl "https://a".toList)), Action.Tick 1,
         Action.runNext]) 1 { Settings.ofUrl "https://a".toList with width := 1920 }
      (by decide)).1⟩

theorem update_change_eq (cfg : Build) (w : World) (this : Nat) (st : Settings)
    (h : sameButSize (derive cfg st) (w.src this) = false) :
    Update cfg w this (some st) = recreate cfg (storeDerived w this (derive cfg st)) this := by
  simp [Update, h]

theorem recreate_queue (cfg : Build) (w : World) (this : Nat) :
    (recreate cfg w this).queue =
      w.queue ++ taskFor w NotificationFunc.ActuallyCloseNotification this ++
        (if cfg.chrome_before_4103 = true ∧ w.accepting = true
          then [Task.ClearAudioStreams this] else []) := by
  obtain ⟨reg, src, sh, au, acc, q, e, fr⟩ := w
  simp only [recreate, DestroyNotification, executeOn_eq_enqueue, SetNotification,
    ClearAudioStreams, QueueCEFTask, World.setSrc, World.enqueue]
  cases cfg.chrome_before_4103 <;> cases acc <;> simp

theorem recreate_src (cfg : Build) (w : World) (this : Nat) :
    (recreate cfg w this).src this =
      { w.src this with
        cefNotification := none
        first_update := false
        create_notification :=
          if (!(w.src this).shutdown_on_invisible || w.showing this) = true then true
          else (w.src this).create_notification } := by
  obtain ⟨reg, src, sh, au, acc, q, e, fr⟩ := w
  simp only [recreate, DestroyNotification, executeOn_eq_enqueue, SetNotification,
    ClearAudioStreams, QueueCEFTask, World.setSrc, World.enqueue]
  cases cfg.chrome_before_4103 <;> cases acc <;>
    cases h1 : (src this).shutdown_on_invisible <;> cases h2 : sh this <;> simp [h1, h2]

theorem recreate_accepting (cfg : Build) (w : World) (this : Nat) :
    (recreate cfg w this).accepting = w.accepting := by
  obtain ⟨reg, src, sh, au, acc, q, e, fr⟩ := w
  simp only [recreate, DestroyNotification, executeOn_eq_enqueue, SetNotification,
    ClearAudioStreams, QueueCEFTask, World.setSrc, World.enqueue]
  cases cfg.chrome_before_4103 <;> cases acc <;> simp

theorem tick_pending (w : World) (this : Nat) (hflag : (w.src this).create_notification = true)
    (hacc : w.accepting = true) :
    (Tick w this).queue = w.queue ++ [Task.CreateNotification this] ∧
    ((Tick w this).src this).create_notification = false ∧
    (Tick w this).accepting = true := by
  obtain ⟨reg, src, sh, au, acc, q, e, fr⟩ := w
  simp only at hflag hacc
  subst hacc
  simp [Tick, CreateNotification, QueueCEFTask, World.setSrc, hflag]

theorem tick_idle (w : World) (this : Nat) (hflag : (w.src this).create_notification = false) :
    Tick w this = w := by
  simp [Tick, hflag]

/-- C4 (as stated, refuted): a hidden source with a live browser gets an Update that turns
teardown-on-hide on; the teardown is queued, but the pending-recreate flag stays clear and
the next accepted Tick queues no creation. -/
theorem C4_counterexample :
    ((performAll Build.windows (World.startHidden [RegCall.construct 1])
        [Action.Update 1 (some (Settings.ofUrl "https://a".toList)), Action.Tick 1,
         Action.runNext]).src 1).cefNotification = some 0 ∧
    (performAll Build.windows (World.startHidden [RegCall.construct 1])
        [Action.Update 1 (some (Settings.ofUrl "https://a".toList)), Action.Tick 1,
         Action.runNext]).queue = [] ∧
    substantiveChange (derive Build.windows { Settings.ofUrl "https://a".toList with shutdown := true })
      ((performAll Build.windows (World.startHidden [RegCall.construct 1])
        [Action.Update 1 (some (Settings.ofUrl "https://a".toList)), Action.Tick 1,
         Action.runNext]).src 1) ∧
    (performAll Build.windows (World.startHidden [RegCall.construct 1])
        [Action.Update 1 (some (Settings.ofUrl "https://a".toList)), Action.Tick 1,
         Action.runNext,
         Action.Update 1 (some { Settings.ofUrl "https://a".toList with shutdown := true })]).queue
      = [Task.onNotification 0 NotificationFunc.ActuallyCloseNotification] ∧
    (performAll Build.windows (World.startHidden [RegCall.construct 1])
        [Action.Update 1 (some (Settings.ofUrl "https://a".toList)), Action.Tick 1,
         Action.runNext,
         Action.Update 1 (some { Settings.ofUrl "https://a".toList with shutdown := true }),
         Action.Tick 1]).accepting = true ∧
    (performAll Build.windows (World.startHidden [RegCall.construct 1])
        [Action.Update 1 (some (Settings.ofUrl "https://a".toList)), Action.Tick 1,
         Action.runNext,
         Action.Update 1 (some { Settings.ofUrl "https://a".toList with shutdown := true }),
         Action.Tick 1]).queue
      = [Task.onNotification 0 NotificationFunc.ActuallyCloseNotification] := by
  decide

/-- C4 (amended): for a source with a live browser b and an Update whose derived values
change the URL, local-file mode, frame-rate mode, audio-reroute flag, interaction level,
injected style or teardown-on-hide flag, while the bridge accepts submissions: Update queues
exactly one teardown, that of b, and clears the handle; if the new teardown-on-hide flag is
off or the host reports the source as showing, the pending-recreate flag is set, the next
accepted Tick queues exactly one creation and clears the flag, and a further Tick queues
nothing; otherwise the flag is left as it was. -/
theorem C4_teardown_then_recreate (cfg : Build) (w : World) (this : Nat) (st : Settings) (b : Nat)
    (hlive : (w.src this).cefNotification = some b) (hacc : w.accepting = true)
    (hchange : substantiveChange (derive cfg st) (w.src this)) :
    (Update cfg w this (some st)).queue =
      w.queue ++ [Task.onNotification b NotificationFunc.ActuallyCloseNotification] ++
        (if cfg.chrome_before_4103 = true then [Task.ClearAudioStreams this] else []) ∧
    ((Update cfg w this (some st)).src this).cefNotification = none ∧
    (((derive cfg st).n_shutdown = false ∨ w.showing this = true) →
      ((Update cfg w this (some st)).src this).create_notification = true ∧
      (Tick (Update cfg w this (some st)) this).queue =
        (Update cfg w this (some st)).queue ++ [Task.CreateNotification this] ∧
      ((Tick (Update cfg w this (some st)) this).src this).create_notification = false ∧
      Tick (Tick (Update cfg w this (some st)) this) this =
        Tick (Update cfg w this (some st)) this) ∧
    (((derive cfg st).n_shutdown = true ∧ w.showing this = false) →
      ((Update cfg w this (some st)).src this).create_notification =
        (w.src this).create_notification) := by
  have hs := sameButSize_false_of_change _ _ hchange
  rw [update_change_eq cfg w this st hs]
  have hlive1 : ((storeDerived w this (derive cfg st)).src this).cefNotification = some b := by
    simp [storeDerived, World.setSrc, hlive]
  have hacc1 : (storeDerived w this (derive cfg st)).accepting = true := hacc
  have hshut1 : ((storeDerived w this (derive cfg st)).src this).shutdown_on_invisible =
      (derive cfg st).n_shutdown := by
    simp [storeDerived, World.setSrc]
  have hflag1 : ((storeDerived w this (derive cfg st)).src this).create_notification =
      (w.src this).create_notification := by
    simp [storeDerived, World.setSrc]
  have hshow1 : (storeDerived w this (derive cfg st)).showing this = w.showing this := rfl
  have hq1 : (storeDerived w this (derive cfg st)).queue = w.queue := rfl
  generalize storeDerived w this (derive cfg st) = w1 at hlive1 hacc1 hshut1 hflag1 hshow1 hq1 ⊢
  refine ⟨?_, ?_, ?_, ?_⟩
  · rw [recreate_queue]
    simp [taskFor, hlive1, hacc1, hq1]
  · rw [recreate_src]
  · intro hshow
    have hflag : ((recreate cfg w1 this).src this).create_notification = true := by
      rw [recreate_src]
      rcases hshow with h1 | h1
      · simp [hshut1, h1]
      · simp [hshow1, h1]
    have hacc2 : (recreate cfg w1 this).accepting = true := by
      rw [recreate_accepting]; exact hacc1
    obtain ⟨t1, t2, _⟩ := tick_pending _ this hflag hacc2
    exact ⟨hflag, t1, t2, tick_idle _ this t2⟩
  · intro hhid
    rw [recreate_src]
    simp [hshut1, hshow1, hflag1, hhid.1, hhid.2]

theorem C4_witness :
    ((performAll Build.windows (World.start [RegCall.construct 1])
        [Action.Update 1 (some (Settings.ofUrl "https://a".toList)), Action.Tick 1,
         Action.runNext]).src 1).cefNotification = some 0 ∧
    (performAll Build.windows (World.start [RegCall.construct 1])
        [Action.Update 1 (some (Settings.ofUrl "https://a".toList)), Action.Tick 1,
         Action.runNext]).accepting = true ∧
    substantiveChange (derive Build.windows (Settings.ofUrl "https://b".toList))
      ((performAll Build.windows (World.start [RegCall.construct 1])
        [Action.Update 1 (some (Settings.ofUrl "https://a".toList)), Action.Tick 1,
         Action.runNext]).src 1) ∧
    ((Update Build.windows (performAll Build.windows (World.start [RegCall.construct 1])
        [Action.Update 1 (some (Settings.ofUrl "https://a".toList)), Action.Tick 1,
         Action.runNext]) 1 (some (Settings.ofUrl "https://b".toList))).src 1).cefNotification
      = none :=
  ⟨by decide, by decide, by decide,
   (C4_teardown_then_recreate Build.windows (performAll Build.windows (World.start [RegCall.construct 1])
        [Action.Update 1 (some (Settings.ofUrl "https://a".toList)), Action.Tick 1,
         Action.runNext]) 1 (Settings.ofUrl "https://b".toList) 0
      (by decide) (by decide) (by decide)).2.1⟩

/-- C10 (the code at the failing interleaving): Update, Tick, a second Update that changes
the URL while the first creation is still queued, Tick, and then the two queued creations
run. Both browsers, handles 0 and 1, were created for source 1 and are live; the source only
holds handle 1, and no teardown of handle 0 was ever queued. -/
theorem C10_two_live_browsers :
    liveFor (performAll Build.windows (World.start [RegCall.construct 1])
      [Action.Update 1 (some (Settings.ofUrl "https://a".toList)), Action.Tick 1,
       Action.Update 1 (some (Settings.ofUrl "https://b".toList)), Action.Tick 1,
       Action.runNext, Action.runNext]) 1 = [1, 0] ∧
    ((performAll Build.windows (World.start [RegCall.construct 1])
      [Action.Update 1 (some (Settings.ofUrl "https://a".toList)), Action.Tick 1,
       Action.Update 1 (some (Settings.ofUrl "https://b".toList)), Action.Tick 1,
       Action.runNext, Action.runNext]).src 1).cefNotification = some 1 ∧
    (performAll Build.windows (World.start [RegCall.construct 1])
      [Action.Update 1 (some (Settings.ofUrl "https://a".toList)), Action.Tick 1,
       Action.Update 1 (some (Settings.ofUrl "https://b".toList)), Action.Tick 1,
       Action.runNext, Action.runNext]).queue = [] := by
  decide

/-! ### The file URL: the two replacement loops -/

theorem find_eq_none_iff (pat : List Char) :
    ∀ s : List Char, find pat s = none ↔ ¬ pat <:+: s := by
  intro s
  induction s with
  | nil =>
    simp only [find, List.infix_nil]
    by_cases hp : pat = []
    · subst hp; simp
    · have : pat.isPrefixOf [] = false := by
        cases pat with
        | nil => exact absurd rfl hp
        | cons a l => rfl
      simp [this, hp]
  | cons c cs ih =>
    rw [List.infix_cons_iff, not_or, ← ih]
    simp only [find]
    by_cases hp : pat.isPrefixOf (c :: cs) = true
    · have hp2 : pat <+: c :: cs := List.isPrefixOf_iff_prefix.mp hp
      simp [hp, hp2]
    · have hp2 : ¬ pat <+: c :: cs := fun h => hp (List.isPrefixOf_iff_prefix.mpr h)
      simp [hp, hp2]

theorem find_some_split (pat : List Char) :
    ∀ (s : List Char) (i : Nat), find pat s = some i →
      ∃ a b, s = a ++ pat ++ b ∧ a.length = i := by
  intro s
  induction s with
  | nil =>
    intro i h
    simp only [find] at h
    by_cases hp : pat.isPrefixOf [] = true
    · have hnil : pat = [] := List.prefix_nil.mp (List.isPrefixOf_iff_prefix.mp hp)
      rw [if_pos hp] at h
      injection h with h
      exact ⟨[], [], by simp [hnil], by simpa using h⟩
    · rw [if_neg hp] at h
      exact Option.noConfusion h
  | cons c cs ih =>
    intro i h
    simp only [find] at h
    by_cases hp : pat.isPrefixOf (c :: cs) = true
    · rw [if_pos hp] at h
      injection h with h
      obtain ⟨t, ht⟩ := List.isPrefixOf_iff_prefix.mp hp
      exact ⟨[], t, by simp [ht], by simpa using h⟩
    · rw [if_neg hp] at h
      cases hf : find pat cs with
      | none => rw [hf] at h; exact Option.noConfusion h
      | some j =>
        rw [hf] at h
        simp only [Option.map_some'] at h
        injection h with h
        obtain ⟨a, b, hab, hlen⟩ := ih j hf
        exact ⟨c :: a, b, by simp [hab], by simp [hlen, h]⟩

theorem replace_split (a pat b str : List Char) :
    replace (a ++ pat ++ b) a.length pat.length str = a ++ str ++ b := by
  simp [replace, List.take_append_eq_append_take, List.drop_append_eq_append_drop]

theorem infix_of_infix_insert (l a b : List Char) (c : Char) (hc : c ∉ l)
    (h : l <:+: a ++ c :: b) : l <:+: a ∨ l <:+: b := by
  obtain ⟨s, t, hst⟩ := h
  have hst2 : s ++ (l ++ t) = a ++ c :: b := by simpa [List.append_assoc] using hst
  rcases List.append_eq_append_iff.mp hst2 with ⟨a1, ha, hlt⟩ | ⟨c1, hs, hcb⟩
  · rcases List.append_eq_append_iff.mp hlt with ⟨a2, ha1, _⟩ | ⟨c2, hl, hcb2⟩
    · left
      exact ⟨s, a2, by rw [ha, ha1, List.append_assoc]⟩
    · cases c2 with
      | nil =>
        left
        refine ⟨s, [], ?_⟩
        rw [ha, hl]; simp
      | cons x c3 =>
        exfalso
        have hx : c = x := by
          have := congrArg List.head? hcb2
          simpa using this
        apply hc
        rw [hl, hx]
        simp
  · cases c1 with
    | nil =>
      cases l with
      | nil => left; exact List.nil_infix
      | cons x l1 =>
        exfalso
        have hx : c = x := by
          have := congrArg List.head? hcb
          simpa using this
        apply hc
        rw [hx]
        simp
    | cons x c3 =>
      right
      have hb : b = c3 ++ (l ++ t) := by
        have := congrArg List.tail hcb
        simpa using this
      exact ⟨c3, t, by rw [hb, List.append_assoc]⟩

theorem replace_found_length (pat : List Char) (hpat : pat.length = 3) (s : List Char) (i : Nat)
    (h : find pat s = some i) : (replace s i 3 ['/']).length + 2 = s.length := by
  obtain ⟨a, b, hab, hlen⟩ := find_some_split pat s i h
  have := replace_split a pat b ['/']
  rw [hpat, hlen, ← hab] at this
  rw [this, hab]
  simp [hpat]
  omega

theorem replace_found_no_new (pat q : List Char) (hpat : pat.length = 3) (hq : '/' ∉ q)
    (s : List Char) (i : Nat) (h : find pat s = some i) (hs : ¬ q <:+: s) :
    ¬ q <:+: replace s i 3 ['/'] := by
  obtain ⟨a, b, hab, hlen⟩ := find_some_split pat s i h
  have := replace_split a pat b ['/']
  rw [hpat, hlen, ← hab] at this
  rw [this]
  intro hin
  have hin2 : q <:+: a ++ '/' :: b := by simpa [List.append_assoc] using hin
  rcases infix_of_infix_insert q a b '/' hq hin2 with h1 | h1
  · apply hs
    rw [hab]
    exact List.IsInfix.trans h1 ⟨[], pat ++ b, by simp⟩
  · apply hs
    rw [hab]
    exact List.IsInfix.trans h1 ⟨a ++ pat, [], by simp⟩

theorem find_replaceLoop (pat : List Char) (hpat : pat.length = 3) :
    ∀ (fuel : Nat) (s : List Char), s.length ≤ fuel → find pat (replaceLoop pat fuel s) = none := by
  intro fuel
  induction fuel with
  | zero =>
    intro s hs
    have hnil : s = [] := List.length_eq_zero.mp (Nat.le_zero.mp hs)
    subst hnil
    rw [find_eq_none_iff]
    intro hin
    have := List.infix_nil.mp hin
    rw [this] at hpat
    simp at hpat
  | succ n ih =>
    intro s hs
    simp only [replaceLoop]
    cases hf : find pat s with
    | none => simpa using hf
    | some i =>
      simp only []
      apply ih
      have := replace_found_length pat hpat s i hf
      omega

theorem replaceLoop_no_new (pat q : List Char) (hpat : pat.length = 3) (hq : '/' ∉ q) :
    ∀ (fuel : Nat) (s : List Char), ¬ q <:+: s → ¬ q <:+: replaceLoop pat fuel s := by
  intro fuel
  induction fuel with
  | zero => intro s hs; exact hs
  | succ n ih =>
    intro s hs
    simp only [replaceLoop]
    cases hf : find pat s with
    | none => exact hs
    | some i => exact ih _ (replace_found_no_new pat q hpat hq s i hf hs)

/-- The loop of lines 518-522 leaves through its condition: no occurrence is left. -/
theorem find_replaceAll (pat : List Char) (hpat : pat.length = 3) (s : List Char) :
    find pat (replaceAll pat s) = none :=
  find_replaceLoop pat hpat s.length s (le_refl _)

theorem infix_of_infix_append_left (l p body : List Char) (c : Char) (l1 : List Char)
    (hl : l = c :: l1) (hc : c ∉ p) (h : l <:+: p ++ body) : l <:+: body := by
  obtain ⟨s, t, hst⟩ := h
  have hst2 : s ++ (l ++ t) = p ++ body := by simpa [List.append_assoc] using hst
  rcases List.append_eq_append_iff.mp hst2 with ⟨a1, ha, hlt⟩ | ⟨c1, _, hcb⟩
  · cases a1 with
    | nil => exact ⟨[], t, by simpa using hlt⟩
    | cons x a2 =>
      exfalso
      have hx : c = x := by
        have := congrArg List.head? hlt
        rw [hl] at this
        simpa using this
      apply hc
      rw [ha, hx]
      simp
  · exact ⟨c1, t, by rw [hcb, List.append_assoc]⟩

/-! ### The file URL: tokens -/

theorem find_pat_head (pat rest : List Char) (hpat : pat ≠ []) :
    find pat (pat ++ rest) = some 0 := by
  cases pat with
  | nil => exact absurd rfl hpat
  | cons p ps =>
    have hp : (p :: ps).isPrefixOf (p :: ps ++ rest) = true :=
      List.isPrefixOf_iff_prefix.mpr (List.prefix_append _ _)
    simp only [List.cons_append] at hp ⊢
    simp [find, hp]

theorem find_skip_char (p1 p2 c : Char) (rest : List Char) (hc : c ≠ '%') :
    find ['%', p1, p2] (c :: rest) = (find ['%', p1, p2] rest).map (fun i => i + 1) := by
  have hc2 : ¬ '%' = c := fun e => hc e.symm
  simp [find, List.isPrefixOf, hc2]

theorem find_skip_tok (p1 p2 : Char) (k rest : List Char) (hk : IsTok k)
    (hne : k ≠ ['%', p1, p2]) :
    find ['%', p1, p2] (k ++ rest) = (find ['%', p1, p2] rest).map (fun i => i + k.length) := by
  rcases hk with ⟨c, hk, hc⟩ | ⟨a, b, hk, ha, hb⟩
  · subst hk
    simpa using find_skip_char p1 p2 c rest hc
  · subst hk
    have hab : ¬ (a = p1 ∧ b = p2) := by
      rintro ⟨h1, h2⟩
      exact hne (by rw [h1, h2])
    have h0 : find ['%', p1, p2] ('%' :: a :: b :: rest) =
        (find ['%', p1, p2] (a :: b :: rest)).map (fun i => i + 1) := by
      have hpre : ['%', p1, p2].isPrefixOf ('%' :: a :: b :: rest) = false := by
        by_cases h1 : p1 = a
        · by_cases h2 : p2 = b
          · exact absurd ⟨h1.symm, h2.symm⟩ hab
          · simp [List.isPrefixOf, h2]
        · simp [List.isPrefixOf, h1]
      simp [find, hpre]
    show find ['%', p1, p2] ('%' :: a :: b :: rest) = _
    rw [h0, find_skip_char p1 p2 a (b :: rest) ha, find_skip_char p1 p2 b rest hb]
    cases find ['%', p1, p2] rest <;> simp

theorem find_flatten (p1 p2 : Char) :
    ∀ toks : List (List Char), (∀ k ∈ toks, IsTok k) →
      find ['%', p1, p2] toks.flatten = findTok ['%', p1, p2] toks := by
  intro toks
  induction toks with
  | nil => intro _; simp [find, findTok, List.isPrefixOf]
  | cons k ks ih =>
    intro hall
    have hk := hall k (List.mem_cons_self k ks)
    have hks := ih (fun x hx => hall x (List.mem_cons_of_mem k hx))
    rw [List.flatten_cons]
    by_cases hkp : k = ['%', p1, p2]
    · rw [hkp, find_pat_head _ _ (by simp)]
      simp [findTok]
    · rw [find_skip_tok p1 p2 k _ hk hkp, hks]
      simp [findTok, hkp]

theorem replace_append_left (a s r : List Char) (j n : Nat) :
    replace (a ++ s) (j + a.length) n r = a ++ replace s j n r := by
  simp only [replace]
  have h1 : List.take (j + a.length) (a ++ s) = a ++ List.take j s := by
    rw [List.take_append_eq_append_take]
    simp
  have h2 : List.drop (j + a.length + n) (a ++ s) = List.drop (j + n) s := by
    rw [List.drop_append_eq_append_drop]
    have : j + a.length + n - a.length = j + n := by omega
    simp [this]
    omega
  rw [h1, h2]
  simp [List.append_assoc]

theorem replace_flatten (pat r : List Char) :
    ∀ (toks : List (List Char)) (i : Nat), findTok pat toks = some i →
      replace toks.flatten i pat.length r = (replaceFirstTok pat r toks).flatten := by
  intro toks
  induction toks with
  | nil => intro i h; exact Option.noConfusion h
  | cons k ks ih =>
    intro i h
    simp only [findTok] at h
    by_cases hkp : k = pat
    · rw [if_pos hkp] at h
      injection h with h
      subst h
      subst hkp
      simp [replaceFirstTok, replace]
    · rw [if_neg hkp] at h
      cases hf : findTok pat ks with
      | none => rw [hf] at h; exact Option.noConfusion h
      | some j =>
        rw [hf] at h
        simp only [Option.map_some'] at h
        injection h with h
        subst h
        rw [List.flatten_cons, replace_append_left, ih j hf]
        simp [replaceFirstTok, hkp]

theorem findTok_eq_none (pat : List Char) :
    ∀ toks : List (List Char), findTok pat toks = none → pat ∉ toks := by
  intro toks
  induction toks with
  | nil => intro _; simp
  | cons k ks ih =>
    intro h
    simp only [findTok] at h
    by_cases hkp : k = pat
    · rw [if_pos hkp] at h; exact Option.noConfusion h
    · rw [if_neg hkp] at h
      have hks : findTok pat ks = none := by
        cases hf : findTok pat ks with
        | none => rfl
        | some j => rw [hf] at h; exact Option.noConfusion h
      intro hmem
      rcases List.mem_cons.mp hmem with h1 | h1
      · exact hkp h1.symm
      · exact ih hks h1

theorem findTok_some_count (pat r : List Char) (hr : r ≠ pat) :
    ∀ (toks : List (List Char)) (i : Nat), findTok pat toks = some i →
      (replaceFirstTok pat r toks).count pat + 1 = toks.count pat := by
  intro toks
  induction toks with
  | nil => intro i h; exact Option.noConfusion h
  | cons k ks ih =>
    intro i h
    simp only [findTok] at h
    by_cases hkp : k = pat
    · subst hkp
      simp [replaceFirstTok, List.count_cons, hr]
    · rw [if_neg hkp] at h
      cases hf : findTok pat ks with
      | none => rw [hf] at h; exact Option.noConfusion h
      | some j =>
        have := ih j hf
        simp [replaceFirstTok, List.count_cons, hkp]
        exact this

theorem map_slashFor_replaceFirstTok (pat : List Char) (hpat : ['/'] ≠ pat) :
    ∀ toks : List (List Char),
      (replaceFirstTok pat ['/'] toks).map (slashFor pat) = toks.map (slashFor pat) := by
  intro toks
  induction toks with
  | nil => rfl
  | cons k ks ih =>
    by_cases hkp : k = pat
    · subst hkp
      simp [replaceFirstTok, slashFor, hpat]
    · simp [replaceFirstTok, hkp, ih]

theorem map_slashFor_of_not_mem (pat : List Char) :
    ∀ toks : List (List Char), pat ∉ toks → toks.map (slashFor pat) = toks := by
  intro toks
  induction toks with
  | nil => intro _; rfl
  | cons k ks ih =>
    intro h
    have hk : k ≠ pat := fun e => h (by simp [e])
    have hks : pat ∉ ks := fun e => h (List.mem_cons_of_mem k e)
    simp [slashFor, hk, ih hks]

theorem isTok_replaceFirstTok (pat r : List Char) (hr : IsTok r) :
    ∀ toks : List (List Char), (∀ k ∈ toks, IsTok k) →
      ∀ k ∈ replaceFirstTok pat r toks, IsTok k := by
  intro toks
  induction toks with
  | nil => intro _ k hk; simp [replaceFirstTok] at hk
  | cons x xs ih =>
    intro hall k hk
    by_cases hxp : x = pat
    · simp only [replaceFirstTok, if_pos hxp, List.mem_cons] at hk
      rcases hk with h1 | h1
      · rw [h1]; exact hr
      · exact hall k (List.mem_cons_of_mem x h1)
    · simp only [replaceFirstTok, if_neg hxp, List.mem_cons] at hk
      rcases hk with h1 | h1
      · rw [h1]; exact hall x (List.mem_cons_self x xs)
      · exact ih (fun y hy => hall y (List.mem_cons_of_mem x hy)) k h1

theorem isTok_slash : IsTok ['/'] :=
  Or.inl ⟨'/', rfl, by decide⟩

theorem replaceLoop_flatten (p1 p2 : Char) :
    ∀ (n : Nat) (toks : List (List Char)), (∀ k ∈ toks, IsTok k) →
      toks.count ['%', p1, p2] ≤ n →
      replaceLoop ['%', p1, p2] n toks.flatten = (toks.map (slashFor ['%', p1, p2])).flatten := by
  intro n
  induction n with
  | zero =>
    intro toks _ hcount
    have hnot : ['%', p1, p2] ∉ toks := by
      intro hmem
      have := List.count_pos_iff.mpr hmem
      omega
    rw [map_slashFor_of_not_mem _ _ hnot]
    rfl
  | succ m ih =>
    intro toks hall hcount
    simp only [replaceLoop]
    rw [find_flatten p1 p2 toks hall]
    cases hf : findTok ['%', p1, p2] toks with
    | none =>
      simp only []
      rw [map_slashFor_of_not_mem _ _ (findTok_eq_none _ _ hf)]
    | some i =>
      simp only []
      have hrep := replace_flatten ['%', p1, p2] ['/'] toks i hf
      simp only [List.length_cons, List.length_nil] at hrep
      rw [hrep]
      have hcnt := findTok_some_count ['%', p1, p2] ['/'] (by simp) toks i hf
      rw [ih _ (isTok_replaceFirstTok _ _ isTok_slash toks hall) (by omega)]
      rw [map_slashFor_replaceFirstTok _ (by simp)]

theorem length_le_flatten :
    ∀ toks : List (List Char), (∀ k ∈ toks, IsTok k) → toks.length ≤ toks.flatten.length := by
  intro toks
  induction toks with
  | nil => intro _; simp
  | cons k ks ih =>
    intro hall
    have hk : 1 ≤ k.length := by
      rcases hall k (List.mem_cons_self k ks) with ⟨c, hk, _⟩ | ⟨a, b, hk, _, _⟩ <;>
        rw [hk] <;> simp
    have := ih (fun x hx => hall x (List.mem_cons_of_mem k hx))
    simp only [List.flatten_cons, List.length_append, List.length_cons]
    omega

theorem replaceAll_flatten (p1 p2 : Char) (toks : List (List Char))
    (hall : ∀ k ∈ toks, IsTok k) :
    replaceAll ['%', p1, p2] toks.flatten = (toks.map (slashFor ['%', p1, p2])).flatten := by
  apply replaceLoop_flatten p1 p2 _ toks hall
  exact le_trans (List.count_le_length _ _) (length_le_flatten toks hall)

/-! ### The file URL: what `CefURIEncode` produces -/

theorem char_toNat_lt (c : Char) : c.toNat < 1114112 := by
  have := c.valid
  simp [UInt32.isValidChar, Nat.isValidChar] at this
  unfold Char.toNat
  omega

theorem utf8Bytes_lt (n : Nat) (hn : n < 1114112) : ∀ b ∈ utf8Bytes n, b < 256 := by
  intro b hb
  unfold utf8Bytes at hb
  split at hb
  · simp at hb; omega
  · split at hb
    · simp at hb; omega
    · split at hb
      · simp at hb; omega
      · simp at hb; omega

theorem utf8Bytes_ascii (n b : Nat) (hb : b ∈ utf8Bytes n) (hlt : b < 128) :
    n = b ∧ utf8Bytes n = [b] := by
  unfold utf8Bytes at hb ⊢
  split at hb
  · simp at hb
    subst hb
    simp [hlt]
  · split at hb
    · simp at hb; omega
    · split at hb
      · simp at hb; omega
      · simp at hb; omega

theorem hexDigit_ne_pct : ∀ d, d < 16 → hexDigit d ≠ '%' := by decide

theorem hexDigit_inj : ∀ d, d < 16 → ∀ e, e < 16 → hexDigit d = hexDigit e → d = e := by decide

theorem pctByte_inj (b v : Nat) (hb : b < 256) (hv : v < 256) (h : pctByte b = pctByte v) :
    b = v := by
  simp only [pctByte, List.cons.injEq, and_true, true_and] at h
  have h1 := hexDigit_inj (b / 16) (by omega) (v / 16) (by omega) h.1
  have h2 := hexDigit_inj (b % 16) (by omega) (v % 16) (by omega) h.2
  omega

theorem isTok_pctByte (b : Nat) (hb : b < 256) : IsTok (pctByte b) :=
  Or.inr ⟨_, _, rfl, hexDigit_ne_pct _ (by omega), hexDigit_ne_pct _ (by omega)⟩

theorem isTok_tokens (c : Char) : ∀ k ∈ tokens c, IsTok k := by
  intro k hk
  unfold tokens at hk
  split at hk
  · rename_i hu
    simp only [List.mem_singleton] at hk
    subst hk
    refine Or.inl ⟨c, rfl, ?_⟩
    intro e
    rw [e] at hu
    exact absurd hu (by decide)
  · obtain ⟨b, hb, hbk⟩ := List.mem_map.mp hk
    rw [← hbk]
    exact isTok_pctByte b (utf8Bytes_lt _ (char_toNat_lt c) b hb)

theorem flatten_tokens (c : Char) : (tokens c).flatten = encodeChar c := by
  unfold tokens encodeChar
  split
  · simp
  · rw [List.flatMap_def]

theorem CefURIEncode_eq_flatten (path : List Char) :
    CefURIEncode path = (path.flatMap tokens).flatten := by
  unfold CefURIEncode
  induction path with
  | nil => rfl
  | cons c cs ih =>
    rw [List.flatMap_cons, List.flatMap_cons, List.flatten_append, flatten_tokens, ih]

/-- Only the character with the ASCII code `v` has the escape `%XX` of `v` among its tokens. -/
theorem pctByte_mem_tokens (v : Nat) (hv : v < 128) (c : Char) (h : pctByte v ∈ tokens c) :
    c = Char.ofNat v := by
  unfold tokens at h
  split at h
  · simp [pctByte] at h
  · obtain ⟨b, hb, hbk⟩ := List.mem_map.mp h
    have hb256 := utf8Bytes_lt _ (char_toNat_lt c) b hb
    have hbv : b = v := pctByte_inj b v hb256 (by omega) hbk
    subst hbv
    have := (utf8Bytes_ascii _ _ hb hv).1
    rw [← this, Char.ofNat_toNat]

theorem pieces_of_tokens (c : Char) :
    (((tokens c).map (slashFor "%5C".toList)).map (slashFor "%2F".toList)).flatten = urlPiece c := by
  by_cases h1 : c = '\\'
  · subst h1; decide
  · by_cases h2 : c = '/'
    · subst h2; decide
    · have hn1 : "%5C".toList ∉ tokens c := by
        intro hmem
        have : c = Char.ofNat 92 := pctByte_mem_tokens 92 (by omega) c hmem
        exact h1 this
      have hn2 : "%2F".toList ∉ tokens c := by
        intro hmem
        have : c = Char.ofNat 47 := pctByte_mem_tokens 47 (by omega) c hmem
        exact h2 this
      rw [map_slashFor_of_not_mem _ _ hn1, map_slashFor_of_not_mem _ _ hn2, flatten_tokens]
      simp [urlPiece, h1, h2]

theorem replaceFirstTok_append (pat r : List Char) :
    ∀ a b : List (List Char), pat ∉ a →
      replaceFirstTok pat r (a ++ b) = a ++ replaceFirstTok pat r b := by
  intro a
  induction a with
  | nil => intro b _; rfl
  | cons x xs ih =>
    intro b h
    have hx : x ≠ pat := fun e => h (by simp [e])
    have hxs : pat ∉ xs := fun e => h (List.mem_cons_of_mem x e)
    simp [replaceFirstTok, hx, ih b hxs]

theorem forall₂_tokens (P : Char → List (List Char) → Prop) (hP : ∀ c, P c (tokens c)) :
    ∀ path : List Char, List.Forall₂ P path (path.map tokens) := by
  intro path
  induction path with
  | nil => exact List.Forall₂.nil
  | cons c cs ih => exact List.Forall₂.cons (hP c) ih

/-- The tokens of the encoded path with the first `%3A` replaced by `:`, grouped by the
characters of the path: every group is the tokens of its character, or `:` for a colon. -/
theorem replaceFirstTok_colon :
    ∀ path : List Char, ∃ groups : List (List (List Char)),
      List.Forall₂ (fun c g => g = tokens c ∨ (c = ':' ∧ g = [[':']])) path groups ∧
      replaceFirstTok "%3A".toList [':'] (path.flatMap tokens) = groups.flatten := by
  intro path
  induction path with
  | nil => exact ⟨[], List.Forall₂.nil, rfl⟩
  | cons c cs ih =>
    by_cases hc : c = ':'
    · subst hc
      refine ⟨[[':']] :: cs.map tokens, List.Forall₂.cons (Or.inr ⟨rfl, rfl⟩)
        (forall₂_tokens _ (fun c => Or.inl rfl) cs), ?_⟩
      have ht : tokens ':' = ["%3A".toList] := by decide
      rw [List.flatMap_cons, ht]
      simp [replaceFirstTok, List.flatMap_def]
    · obtain ⟨groups, hg, heq⟩ := ih
      have hn : "%3A".toList ∉ tokens c := by
        intro hmem
        have : c = Char.ofNat 58 := pctByte_mem_tokens 58 (by omega) c hmem
        exact hc this
      refine ⟨tokens c :: groups, List.Forall₂.cons (Or.inl rfl) hg, ?_⟩
      rw [List.flatMap_cons, replaceFirstTok_append _ _ _ _ hn, heq, List.flatten_cons]

theorem restoreColon_flatten (toks : List (List Char)) (hall : ∀ k ∈ toks, IsTok k) :
    restoreColon toks.flatten = toks.flatten ∨
    restoreColon toks.flatten = (replaceFirstTok "%3A".toList [':'] toks).flatten := by
  unfold restoreColon
  have h1 : find "%3A".toList toks.flatten = findTok "%3A".toList toks :=
    find_flatten '3' 'A' toks hall
  cases hs : find "%2F".toList toks.flatten with
  | none => left; rfl
  | some slash =>
    cases hc : find "%3A".toList toks.flatten with
    | none => left; rfl
    | some colon =>
      simp only []
      by_cases hlt : colon < slash
      · right
        rw [if_pos hlt]
        have := replace_flatten "%3A".toList [':'] toks colon (by rw [← h1]; exact hc)
        simpa using this
      · left
        rw [if_neg hlt]

theorem flatten_map_flatten (f : List Char → List Char) :
    ∀ groups : List (List (List Char)),
      (groups.flatten.map f).flatten = (groups.map (fun g => (g.map f).flatten)).flatten := by
  intro groups
  induction groups with
  | nil => rfl
  | cons g gs ih =>
    simp only [List.flatten_cons, List.map_append, List.flatten_append, List.map_cons, ih]

theorem isTok_slashFor (pat k : List Char) (hk : IsTok k) : IsTok (slashFor pat k) := by
  unfold slashFor
  split
  · exact isTok_slash
  · exact hk

/-- The rewritten path, piece by piece: every character of the path contributes its
`urlPiece`, except that on Windows a colon may contribute `:`. -/
theorem localFileUrl_pieces (cfg : Build) (path : List Char) :
    ∃ pieces : List (List Char),
      List.Forall₂ (fun c k => k = urlPiece c ∨ (cfg.win32 = true ∧ c = ':' ∧ k = [':']))
        path pieces ∧
      localFileUrl cfg path = urlScheme cfg ++ pieces.flatten := by
  have hallT : ∀ k ∈ path.flatMap tokens, IsTok k := by
    intro k hk
    obtain ⟨c, _, hck⟩ := List.mem_flatMap.mp hk
    exact isTok_tokens c k hck
  -- the token groups after the colon step
  have hgroups : ∃ groups : List (List (List Char)),
      List.Forall₂ (fun c g => g = tokens c ∨ (cfg.win32 = true ∧ c = ':' ∧ g = [[':']]))
        path groups ∧
      (if cfg.win32 = true then restoreColon (CefURIEncode path) else CefURIEncode path)
        = groups.flatten.flatten := by
    have hplain : path.flatMap tokens = (path.map tokens).flatten := List.flatMap_def _ _
    by_cases hw : cfg.win32 = true
    · rw [if_pos hw, CefURIEncode_eq_flatten]
      rcases restoreColon_flatten _ hallT with h | h
      · exact ⟨path.map tokens, forall₂_tokens _ (fun c => Or.inl rfl) path, by rw [h, hplain]⟩
      · obtain ⟨groups, hg, heq⟩ := replaceFirstTok_colon path
        refine ⟨groups, ?_, by rw [h, heq]⟩
        exact hg.imp (fun c g hcg => hcg.imp id (fun hx => ⟨hw, hx.1, hx.2⟩))
    · rw [if_neg hw, CefURIEncode_eq_flatten]
      exact ⟨path.map tokens, forall₂_tokens _ (fun c => Or.inl rfl) path, by rw [hplain]⟩
  obtain ⟨groups, hg, heq⟩ := hgroups
  have hallG : ∀ k ∈ groups.flatten, IsTok k := by
    intro k hk
    obtain ⟨g, hgm, hkg⟩ := List.mem_flatten.mp hk
    have : ∀ (p : List Char) (gs : List (List (List Char))),
        List.Forall₂ (fun c g => g = tokens c ∨ (cfg.win32 = true ∧ c = ':' ∧ g = [[':']])) p gs →
        g ∈ gs → IsTok k := by
      intro p gs hfa
      induction hfa with
      | nil => intro hm; simp at hm
      | cons hcg _ ih2 =>
        intro hm
        rcases List.mem_cons.mp hm with h1 | h1
        · rcases hcg with h2 | ⟨_, _, h2⟩
          · rw [h1, h2] at hkg
            exact isTok_tokens _ k hkg
          · rw [h1, h2] at hkg
            simp only [List.mem_singleton] at hkg
            rw [hkg]
            exact Or.inl ⟨':', rfl, by decide⟩
        · exact ih2 h1
    exact this path groups hg hgm
  refine ⟨groups.map (fun g =>
      ((g.map (slashFor "%5C".toList)).map (slashFor "%2F".toList)).flatten), ?_, ?_⟩
  · rw [List.forall₂_map_right_iff]
    apply hg.imp
    intro c g hcg
    rcases hcg with h | ⟨hw, hc, h⟩
    · left
      rw [h]
      exact pieces_of_tokens c
    · right
      refine ⟨hw, hc, ?_⟩
      rw [h]
      decide
  · unfold localFileUrl
    simp only [Bool.if_true_left, Bool.decide_eq_true] at heq ⊢
    have heq2 : (if cfg.win32 = true then restoreColon (CefURIEncode path) else CefURIEncode path)
        = groups.flatten.flatten := heq
    rw [heq2]
    have e1 := replaceAll_flatten '5' 'C' groups.flatten hallG
    have hall2 : ∀ k ∈ groups.flatten.map (slashFor ['%', '5', 'C']), IsTok k := by
      intro k hk
      obtain ⟨k0, hk0, hkk⟩ := List.mem_map.mp hk
      rw [← hkk]
      exact isTok_slashFor _ _ (hallG k0 hk0)
    have e2 := replaceAll_flatten '2' 'F' _ hall2
    have s1 : "%5C".toList = ['%', '5', 'C'] := rfl
    have s2 : "%2F".toList = ['%', '2', 'F'] := rfl
    rw [s1, s2, e1, e2, List.map_map, flatten_map_flatten]
    congr 2
    apply List.map_congr_left
    intro g _
    simp [List.map_map]

/-! ### The file URL: the claims -/

theorem astrcmpi_urlScheme (cfg : Build) (body : List Char)
    (hs : cfg.local_file_url_scheme = true) :
    astrcmpi_n_eq (urlScheme cfg ++ body) "http://absolute/".toList 16 = false := by
  have hhead : ∃ rest, urlScheme cfg ++ body = 'f' :: rest := by
    unfold urlScheme
    rw [hs]
    cases cfg.win32
    · exact ⟨_, rfl⟩
    · exact ⟨_, rfl⟩
  obtain ⟨rest, hrest⟩ := hhead
  rw [hrest]
  unfold astrcmpi_n_eq
  have hp : ("http://absolute/".toList.take 16).map toupper = "HTTP://ABSOLUTE/".toList := by
    decide
  rw [hp]
  have hf : toupper 'f' = 'F' := by decide
  simp only [List.take_succ_cons, List.map_cons, hf]
  have hne : ¬ ('F' :: List.map toupper (List.take 15 rest) = "HTTP://ABSOLUTE/".toList) := by
    intro e
    have := congrArg List.head? e
    simp at this
  simp [hne]

theorem derive_local_url (cfg : Build) (st : Settings) (hlocal : st.is_local_file = true)
    (hne : st.local_file ≠ []) : (derive cfg st).n_url = localFileUrl cfg st.local_file := by
  have hemp : st.local_file.isEmpty = false := by
    cases hl : st.local_file with
    | nil => exact absurd hl hne
    | cons c cs => rfl
  unfold derive
  simp only [hlocal, hemp, if_true, Bool.not_false, Bool.and_self]
  by_cases hs : cfg.local_file_url_scheme = true
  · have : astrcmpi_n_eq (localFileUrl cfg st.local_file) "http://absolute/".toList 16 = false := by
      unfold localFileUrl
      exact astrcmpi_urlScheme cfg _ hs
    have hlit : "http://absolute/".toList =
        ['h', 't', 't', 'p', ':', '/', '/', 'a', 'b', 's', 'o', 'l', 'u', 't', 'e', '/'] := rfl
    rw [hlit] at this
    simp [hs, this]
  · simp [hs]

/-- C5 (the code at the failing input): on Windows with file URLs enabled the path
C:\notifications\panel.html yields file:///C%3A/notifications/panel.html: the colon of the
drive letter stays percent-encoded, because no forward slash (%2F) follows it. With forward
slashes the colon is restored. -/
theorem C5_backslash_path_keeps_encoded_colon :
    (derive Build.windows (Settings.ofLocalFile "C:\\notifications\\panel.html".toList)).n_url
      = "file:///C%3A/notifications/panel.html".toList ∧
    (derive Build.windows (Settings.ofLocalFile "C:/notifications/panel.html".toList)).n_url
      = "file:///C:/notifications/panel.html".toList := by
  decide

/-- C6: for every non-empty local file path the URL computed by Update has no occurrence of
%5C or %2F, and it is made of the pieces of the path in order: every backslash and every
forward slash contributes exactly the character /, every other character its
percent-encoding (on Windows a colon may contribute a plain colon instead). -/
theorem C6_separators_become_slashes (cfg : Build) (st : Settings)
    (hlocal : st.is_local_file = true) (hne : st.local_file ≠ []) :
    find "%5C".toList (derive cfg st).n_url = none ∧
    find "%2F".toList (derive cfg st).n_url = none ∧
    ∃ pieces : List (List Char),
      List.Forall₂ (fun c k => k = urlPiece c ∨ (cfg.win32 = true ∧ c = ':' ∧ k = [':']))
        st.local_file pieces ∧
      (derive cfg st).n_url = urlScheme cfg ++ pieces.flatten := by
  rw [derive_local_url cfg st hlocal hne]
  have hscheme : '%' ∉ urlScheme cfg := by
    unfold urlScheme
    cases cfg.local_file_url_scheme <;> cases cfg.win32 <;> decide
  refine ⟨?_, ?_, localFileUrl_pieces cfg st.local_file⟩
  · rw [find_eq_none_iff]
    intro hin
    have h1 := infix_of_infix_append_left "%5C".toList (urlScheme cfg) _ '%' ['5', 'C'] rfl
      hscheme hin
    have h2 : ¬ "%5C".toList <:+:
        replaceAll "%5C".toList (if cfg.win32 = true then restoreColon (CefURIEncode st.local_file)
          else CefURIEncode st.local_file) :=
      (find_eq_none_iff _ _).mp (find_replaceAll "%5C".toList rfl _)
    exact replaceLoop_no_new "%2F".toList "%5C".toList rfl (by decide) _ _ h2 h1
  · rw [find_eq_none_iff]
    intro hin
    have h1 := infix_of_infix_append_left "%2F".toList (urlScheme cfg) _ '%' ['2', 'F'] rfl
      hscheme hin
    exact (find_eq_none_iff _ _).mp (find_replaceAll "%2F".toList rfl _) h1

theorem C6_witness :
    (Settings.ofLocalFile "C:/notifications\\panel.html".toList).is_local_file = true ∧
    (Settings.ofLocalFile "C:/notifications\\panel.html".toList).local_file ≠ [] ∧
    find "%5C".toList
      (derive Build.windows (Settings.ofLocalFile "C:/notifications\\panel.html".toList)).n_url
      = none :=
  ⟨rfl, by decide,
   (C6_separators_become_slashes Build.windows
      (Settings.ofLocalFile "C:/notifications\\panel.html".toList) rfl (by decide)).1⟩

/-! ### Destroy -/

theorem Registry.ext_fields (s t : Registry) (h1 : s.first_notification = t.first_notification)
    (h2 : ∀ z, s.next z = t.next z) (h3 : ∀ z, s.p_prev_next z = t.p_prev_next z) : s = t := by
  obtain ⟨f, n, p⟩ := s
  obtain ⟨f2, n2, p2⟩ := t
  simp only at h1 h2 h3
  have hn : n = n2 := funext h2
  have hp : p = p2 := funext h3
  rw [h1, hn, hp]

theorem next_Destroy_self (s : Registry) (x : Nat) : (s.Destroy x).next x = s.next x := by
  rw [next_Destroy]
  split <;> rfl

theorem pprev_Destroy_self (s : Registry) (x : Nat) :
    (s.Destroy x).p_prev_next x = s.p_prev_next x := by
  rw [pprev_Destroy]
  split <;> rfl

/-- Unlinking twice in a row writes the same values twice. -/
theorem Registry.Destroy_Destroy (s : Registry) (x : Nat) :
    (s.Destroy x).Destroy x = s.Destroy x := by
  apply Registry.ext_fields
  · have h := load_Destroy (s.Destroy x) x Loc.head
    have h0 := load_Destroy s x Loc.head
    simp only [Registry.load] at h h0
    rw [h, next_Destroy_self, pprev_Destroy_self, h0]
    split <;> simp_all
  · intro z
    rw [next_Destroy (s.Destroy x), next_Destroy_self, pprev_Destroy_self, next_Destroy]
    split <;> simp_all
  · intro z
    rw [pprev_Destroy (s.Destroy x), next_Destroy_self, pprev_Destroy_self, pprev_Destroy]
    split <;> simp_all

theorem Destroy_eq (w : World) (this : Nat) :
    Destroy w this =
      { w with
        src := fun j => if j = this then { w.src this with destroying := true } else w.src j
        reg := w.reg.Destroy this
        queue := w.queue ++ (if w.accepting = true then [Task.deleteThis this] else []) } := by
  obtain ⟨reg, src, sh, au, acc, q, e, fr⟩ := w
  cases acc <;> simp [Destroy, QueueCEFTask, World.setSrc]

/-- C11 (the code at the failing input): source 1 holds the live browser 0; after Destroy has
set the destroying flag and queued the deletion, SendMouseClick, SendMouseMove,
SendMouseWheel, SendFocus and Refresh each still queue a task for browser 0 on the bridge;
only SendKeyClick, which tests the flag, queues nothing. -/
theorem C11_input_after_Destroy_still_queued :
    ((Destroy World.live 1).src 1).destroying = true ∧
    (Destroy World.live 1).queue = [Task.deleteThis 1] ∧
    (SendMouseClick (Destroy World.live 1) 1 ⟨0, 10, 20⟩ 0 false 1).queue =
      [Task.deleteThis 1,
       Task.onNotification 0 (NotificationFunc.mouseClick ⟨0, 10, 20⟩ 0 false 1)] ∧
    (SendMouseMove (Destroy World.live 1) 1 ⟨0, 10, 20⟩ false).queue =
      [Task.deleteThis 1, Task.onNotification 0 (NotificationFunc.mouseMove ⟨0, 10, 20⟩ false)] ∧
    (SendMouseWheel (Destroy World.live 1) 1 ⟨0, 10, 20⟩ 0 1).queue =
      [Task.deleteThis 1, Task.onNotification 0 (NotificationFunc.mouseWheel ⟨0, 10, 20⟩ 0 1)] ∧
    (SendFocus (Destroy World.live 1) 1 true).queue =
      [Task.deleteThis 1, Task.onNotification 0 (NotificationFunc.focus true)] ∧
    (Refresh (Destroy World.live 1) 1).queue =
      [Task.deleteThis 1, Task.onNotification 0 NotificationFunc.reload] ∧
    (SendKeyClick (Destroy World.live 1) 1 ⟨0, "a", 0, 0, 65⟩ false).queue =
      [Task.deleteThis 1] := by
  decide

/-- C12 (as stated, refuted): a second Destroy right after the first queues a second
deletion task for the same instance. -/
theorem C12_counterexample :
    (Destroy World.live 1).queue = [Task.deleteThis 1] ∧
    (Destroy (Destroy World.live 1) 1).queue = [Task.deleteThis 1, Task.deleteThis 1] := by
  decide

/-- C12 (amended): a second Destroy right after the first leaves the registry, the sources
(the destroying flag included), the engine and the released memory as the first left them,
but it is not a no-op: Destroy does not test the destroying flag, and the second call
submits a further deletion task, which is queued whenever the bridge accepts it. -/
theorem C12_second_Destroy (w : World) (this : Nat) :
    (Destroy (Destroy w this) this).reg = (Destroy w this).reg ∧
    (Destroy (Destroy w this) this).src = (Destroy w this).src ∧
    (Destroy (Destroy w this) this).engine = (Destroy w this).engine ∧
    (Destroy (Destroy w this) this).freed = (Destroy w this).freed ∧
    (Destroy (Destroy w this) this).queue =
      (Destroy w this).queue ++ (if w.accepting = true then [Task.deleteThis this] else []) := by
  rw [Destroy_eq (Destroy w this) this, Destroy_eq w this]
  refine ⟨?_, ?_, rfl, rfl, rfl⟩
  · exact Registry.Destroy_Destroy w.reg this
  · funext j
    by_cases hj : j = this <;> simp [hj]

/-- C13 (as stated, refuted): while the bridge rejects submissions, Destroy on the
registered source 1 queues no deletion task at all. -/
theorem C13_counterexample :
    registered 1 [RegCall.construct 1] = true ∧
    World.live.rejecting.reg = Registry.run [RegCall.construct 1] ∧
    ((Destroy World.live.rejecting 1).src 1).destroying = true ∧
    (Destroy World.live.rejecting 1).queue = [] := by
  refine ⟨by decide, rfl, by decide, by decide⟩

/-- C13 (amended): for every registered source, Destroy sets the destroying flag, unlinks
the instance before returning (the traversal no longer visits it and still visits every
other registered instance), and submits exactly one task, the deletion, to the bridge:
the queue gains exactly that task when the bridge accepts it and nothing when it rejects.
The engine, the browser handle and the released memory are untouched: nothing is closed
or deleted on the calling thread. -/
theorem C13_Destroy_defers_deletion (h : List RegCall) (hadm : admissible h = true)
    (this : Nat) (hreg : registered this h = true) (w : World) (hw : w.reg = Registry.run h) :
    ((Destroy w this).src this).destroying = true ∧
    (∃ l, (Destroy w this).reg.traversal (h.length + 1) = some l ∧ this ∉ l ∧
      ∀ x, x ≠ this → (x ∈ l ↔ registered x h = true)) ∧
    (Destroy w this).queue =
      w.queue ++ (if w.accepting = true then [Task.deleteThis this] else []) ∧
    (Destroy w this).engine = w.engine ∧
    (Destroy w this).freed = w.freed ∧
    ((Destroy w this).src this).cefNotification = (w.src this).cefNotification := by
  rw [Destroy_eq w this]
  refine ⟨by simp, ?_, rfl, rfl, rfl, by simp⟩
  have hadm2 : admissible (RegCall.Destroy this :: h) = true := by
    simp [admissible, hadm, hreg]
  obtain ⟨_, _, hmem⟩ := run_chain _ hadm2
  refine ⟨expected (RegCall.Destroy this :: h), ?_, ?_, ?_⟩
  · show (w.reg.Destroy this).traversal (h.length + 1) = _
    rw [hw]
    exact traversal_run _ hadm2 _ (by simp)
  · intro hin
    have := (hmem this).mp hin
    simp [registered] at this
  · intro x hx
    rw [hmem x]
    have hne : ¬ this = x := fun e => hx e.symm
    simp [registered, hne]

theorem C13_witness :
    admissible [RegCall.construct 1] = true ∧ registered 1 [RegCall.construct 1] = true ∧
    World.live.reg = Registry.run [RegCall.construct 1] ∧
    (Destroy World.live 1).queue =
      World.live.queue ++ (if World.live.accepting = true then [Task.deleteThis 1] else []) :=
  ⟨by decide, by decide, rfl,
   (C13_Destroy_defers_deletion [RegCall.construct 1] (by decide) 1 (by decide)
      World.live rfl).2.2.1⟩

/-! ### Visibility -/

theorem DestroyNotification_eq (w : World) (this : Nat) :
    DestroyNotification w this =
      (w.enqueue (taskFor w NotificationFunc.ActuallyCloseNotification this)).setSrc this
        { w.src this with cefNotification := none } := by
  unfold DestroyNotification SetNotification
  rw [executeOn_eq_enqueue]
  rfl

theorem SetShowing_hide_eq (cfg : Build) (w : World) (this : Nat)
    (hd : (w.src this).destroying = false) (hs : (w.src this).shutdown_on_invisible = true) :
    SetShowing cfg w this false =
      DestroyNotification (w.setSrc this { w.src this with is_showing := false }) this := by
  simp [SetShowing, hd, World.setSrc, hs]

theorem SetShowing_show_eq (cfg : Build) (w : World) (this : Nat)
    (hd : (w.src this).destroying = false) (hs : (w.src this).shutdown_on_invisible = true) :
    SetShowing cfg w this true =
      recreate cfg (w.setSrc this { w.src this with is_showing := true }) this := by
  simp [SetShowing, hd, World.setSrc, hs, Update]

/-- C14 (as stated, refuted): a teardown-on-hide source holding the live browser 0 is hidden
while the bridge rejects submissions; the handle is dropped, but no close task is queued
for browser 0. -/
theorem C14_counterexample :
    (World.liveTeardownOnHide.rejecting.src 1).destroying = false ∧
    (World.liveTeardownOnHide.rejecting.src 1).shutdown_on_invisible = true ∧
    (World.liveTeardownOnHide.rejecting.src 1).cefNotification = some 0 ∧
    ((SetShowing Build.windows World.liveTeardownOnHide.rejecting 1 false).src 1).cefNotification
      = none ∧
    (SetShowing Build.windows World.liveTeardownOnHide.rejecting 1 false).queue = [] := by
  decide

/-- C14 (amended): for every non-destroying source in teardown-on-hide mode,
SetShowing(false) drops the browser handle at once: on return the source holds no browser
instance and is marked not showing, the engine has not been touched, and the close of the
previously live instance has been submitted; the queue gains exactly that close task when
there was a live instance and the bridge accepted the submission, and nothing otherwise. -/
theorem C14_hide_tears_down (cfg : Build) (w : World) (this : Nat)
    (hd : (w.src this).destroying = false) (hs : (w.src this).shutdown_on_invisible = true) :
    ((SetShowing cfg w this false).src this).cefNotification = none ∧
    ((SetShowing cfg w this false).src this).is_showing = false ∧
    (SetShowing cfg w this false).engine = w.engine ∧
    (SetShowing cfg w this false).queue =
      w.queue ++ taskFor w NotificationFunc.ActuallyCloseNotification this ∧
    (∀ b, (w.src this).cefNotification = some b → w.accepting = true →
      (SetShowing cfg w this false).queue =
        w.queue ++ [Task.onNotification b NotificationFunc.ActuallyCloseNotification]) ∧
    ((w.src this).cefNotification = none → (SetShowing cfg w this false).queue = w.queue) ∧
    (w.accepting = false → (SetShowing cfg w this false).queue = w.queue) := by
  have hq : (SetShowing cfg w this false).queue =
      w.queue ++ taskFor w NotificationFunc.ActuallyCloseNotification this := by
    rw [SetShowing_hide_eq cfg w this hd hs, DestroyNotification_eq]
    simp [World.setSrc, World.enqueue, taskFor]
  refine ⟨?_, ?_, ?_, hq, ?_, ?_, ?_⟩
  · rw [SetShowing_hide_eq cfg w this hd hs, DestroyNotification_eq]
    simp [World.setSrc]
  · rw [SetShowing_hide_eq cfg w this hd hs, DestroyNotification_eq]
    simp [World.setSrc]
  · rw [SetShowing_hide_eq cfg w this hd hs, DestroyNotification_eq]
    rfl
  · intro b hb hacc
    rw [hq]
    simp [taskFor, hb, hacc]
  · intro hb
    rw [hq]
    simp [taskFor, hb]
  · intro hacc
    rw [hq]
    unfold taskFor
    cases (w.src this).cefNotification <;> simp [hacc]

theorem C14_witness :
    (World.liveTeardownOnHide.src 1).destroying = false ∧
    (World.liveTeardownOnHide.src 1).shutdown_on_invisible = true ∧
    (SetShowing Build.windows World.liveTeardownOnHide 1 false).queue =
      World.liveTeardownOnHide.queue ++
        [Task.onNotification 0 NotificationFunc.ActuallyCloseNotification] :=
  ⟨by decide, by decide,
   (C14_hide_tears_down Build.windows World.liveTeardownOnHide 1 (by decide) (by decide)).2.2.2.2.1
     0 (by decide) (by decide)⟩

/-- C15 (as stated, refuted): a teardown-on-hide source without a browser gets
SetShowing(true) while the host answers obs_source_showing with false; the pending-recreate
flag is still clear on return and the next accepted Tick queues no creation. -/
theorem C15_counterexample :
    (World.hiddenTeardownOnHide.src 1).destroying = false ∧
    (World.hiddenTeardownOnHide.src 1).shutdown_on_invisible = true ∧
    ((SetShowing Build.windows World.hiddenTeardownOnHide 1 true).src 1).create_notification
      = false ∧
    (SetShowing Build.windows World.hiddenTeardownOnHide 1 true).accepting = true ∧
    (Tick (SetShowing Build.windows World.hiddenTeardownOnHide 1 true) 1).queue = [] := by
  decide

/-- C15 (amended): for every non-destroying source in teardown-on-hide mode,
SetShowing(true) marks the source showing and re-applies the configuration (the browser
handle is dropped for recreation); if the host reports the source as showing, the
pending-recreate flag is set on return, and the next Tick whose submission is accepted
queues exactly one creation and clears the flag; if the host does not, the flag is left
as it was. -/
theorem C15_show_requests_creation (cfg : Build) (w : World) (this : Nat)
    (hd : (w.src this).destroying = false) (hs : (w.src this).shutdown_on_invisible = true) :
    ((SetShowing cfg w this true).src this).is_showing = true ∧
    ((SetShowing cfg w this true).src this).cefNotification = none ∧
    (w.showing this = true →
      ((SetShowing cfg w this true).src this).create_notification = true ∧
      (w.accepting = true →
        (Tick (SetShowing cfg w this true) this).queue =
          (SetShowing cfg w this true).queue ++ [Task.CreateNotification this] ∧
        ((Tick (SetShowing cfg w this true) this).src this).create_notification = false)) ∧
    (w.showing this = false →
      ((SetShowing cfg w this true).src this).create_notification =
        (w.src this).create_notification) := by
  rw [SetShowing_show_eq cfg w this hd hs]
  have hshut1 : ((w.setSrc this { w.src this with is_showing := true }).src this).shutdown_on_invisible
      = true := by
    simp [World.setSrc, hs]
  have hflag1 : ((w.setSrc this { w.src this with is_showing := true }).src this).create_notification
      = (w.src this).create_notification := by
    simp [World.setSrc]
  have hshow1 : ((w.setSrc this { w.src this with is_showing := true }).src this).is_showing
      = true := by
    simp [World.setSrc]
  have hsh : (w.setSrc this { w.src this with is_showing := true }).showing this = w.showing this :=
    rfl
  have hacc1 : (w.setSrc this { w.src this with is_showing := true }).accepting = w.accepting :=
    rfl
  generalize w.setSrc this { w.src this with is_showing := true } = w1
    at hshut1 hflag1 hshow1 hsh hacc1 ⊢
  refine ⟨?_, ?_, ?_, ?_⟩
  · rw [recreate_src]; exact hshow1
  · rw [recreate_src]
  · intro hshow
    have hflag : ((recreate cfg w1 this).src this).create_notification = true := by
      rw [recreate_src]
      simp [hsh, hshow]
    refine ⟨hflag, ?_⟩
    intro hacc
    have hacc2 : (recreate cfg w1 this).accepting = true := by
      rw [recreate_accepting, hacc1]; exact hacc
    obtain ⟨t1, t2, _⟩ := tick_pending _ this hflag hacc2
    exact ⟨t1, t2⟩
  · intro hhid
    rw [recreate_src]
    simp [hshut1, hsh, hhid, hflag1]

theorem C15_witness :
    (World.liveTeardownOnHide.src 1).destroying = false ∧
    (World.liveTeardownOnHide.src 1).shutdown_on_invisible = true ∧
    ((SetShowing Build.windows World.liveTeardownOnHide 1 true).src 1).create_notification
      = true :=
  ⟨by decide, by decide,
   ((C15_show_requests_creation Build.windows World.liveTeardownOnHide 1 (by decide)
      (by decide)).2.2.1 (by decide)).1⟩

/-! ### Activation, input and the asynchronous path -/

theorem taskFor_no_browser (w : World) (func : NotificationFunc) (this : Nat)
    (h : (w.src this).cefNotification = none) : taskFor w func this = [] := by
  simp [taskFor, h]

theorem taskFor_rejecting (w : World) (func : NotificationFunc) (this : Nat)
    (h : w.accepting = false) : taskFor w func this = [] := by
  unfold taskFor
  cases (w.src this).cefNotification <;> simp [h]

theorem taskFor_live (w : World) (func : NotificationFunc) (this b : Nat)
    (h : (w.src this).cefNotification = some b) (hacc : w.accepting = true) :
    taskFor w func this = [Task.onNotification b func] := by
  simp [taskFor, h, hacc]

theorem SetActive_eq (w : World) (this : Nat) (a : Bool) :
    SetActive w this a =
      w.enqueue (taskFor w (NotificationFunc.active a) this ++
        taskFor w (NotificationFunc.jsEvent "obsSourceActiveChanged" (activeJson a)) this) := by
  simp only [SetActive, ExecuteOnNotification, executeOn_eq_enqueue, taskFor_enqueue,
    enqueue_enqueue]

theorem info_activate_eq (w : World) (this : Nat) :
    info_activate w this =
      w.enqueue ((if (w.src this).restart = true
          then taskFor w NotificationFunc.reload this else []) ++
        (taskFor w (NotificationFunc.active true) this ++
          taskFor w (NotificationFunc.jsEvent "obsSourceActiveChanged" (activeJson true)) this)) := by
  unfold info_activate
  by_cases hr : (w.src this).restart = true
  · simp only [hr, if_true, Refresh, executeOn_eq_enqueue, SetActive_eq, taskFor_enqueue,
      enqueue_enqueue]
  · simp only [hr, SetActive_eq]
    simp

/-- C16: the activate callback hands a reload-ignoring-cache to the source's asynchronous
path if and only if the restart-on-activate flag is set, and does so before the Active(true)
message; activate and deactivate each hand over an Active message carrying the new boolean
and then an obsSourceActiveChanged event, all three addressed to that source's browser and
to nothing else (the rest of the world is unchanged). For a source with a live browser on
an accepting bridge these are exactly the tasks queued, in this order. -/
theorem C16_activate_deactivate (w : World) (this : Nat) :
    info_activate w this =
      w.enqueue ((if (w.src this).restart = true
          then taskFor w NotificationFunc.reload this else []) ++
        (taskFor w (NotificationFunc.active true) this ++
          taskFor w (NotificationFunc.jsEvent "obsSourceActiveChanged" (activeJson true)) this)) ∧
    info_deactivate w this =
      w.enqueue (taskFor w (NotificationFunc.active false) this ++
        taskFor w (NotificationFunc.jsEvent "obsSourceActiveChanged" (activeJson false)) this) ∧
    (∀ b, (w.src this).cefNotification = some b → w.accepting = true →
      (info_activate w this).queue =
        w.queue ++ (if (w.src this).restart = true
            then [Task.onNotification b NotificationFunc.reload] else []) ++
          [Task.onNotification b (NotificationFunc.active true),
           Task.onNotification b
             (NotificationFunc.jsEvent "obsSourceActiveChanged" "\x7b\"active\":true\x7d")] ∧
      (info_deactivate w this).queue =
        w.queue ++
          [Task.onNotification b (NotificationFunc.active false),
           Task.onNotification b
             (NotificationFunc.jsEvent "obsSourceActiveChanged" "\x7b\"active\":false\x7d")]) ∧
    (∀ (cfg : Build) (v : World) (b : Nat) (a : Bool),
      runTask cfg v (Task.onNotification b (NotificationFunc.active a)) =
        { v with engine := { v.engine with calls := v.engine.calls ++
            [(b, BrowserCall.SendProcessMessage "Active" [Arg.bool a])] } }) ∧
    (∀ (cfg : Build) (v : World) (b : Nat),
      runTask cfg v (Task.onNotification b NotificationFunc.reload) =
        { v with engine := { v.engine with calls := v.engine.calls ++
            [(b, BrowserCall.ReloadIgnoreCache)] } }) := by
  refine ⟨info_activate_eq w this, SetActive_eq w this false, ?_, fun _ _ _ _ => rfl,
    fun _ _ _ => rfl⟩
  intro b hb hacc
  constructor
  · rw [info_activate_eq]
    simp only [World.enqueue, taskFor_live w _ this b hb hacc]
    by_cases hr : (w.src this).restart = true
    · simp [hr, activeJson]
    · simp [hr, activeJson]
  · show (SetActive w this false).queue = _
    rw [SetActive_eq]
    simp [World.enqueue, taskFor_live w _ this b hb hacc, activeJson]

theorem C16_witness :
    (World.live.src 1).cefNotification = some 0 ∧ World.live.accepting = true ∧
    ((info_activate World.live 1).queue =
        World.live.queue ++ (if (World.live.src 1).restart = true
            then [Task.onNotification 0 NotificationFunc.reload] else []) ++
          [Task.onNotification 0 (NotificationFunc.active true),
           Task.onNotification 0
             (NotificationFunc.jsEvent "obsSourceActiveChanged" "\x7b\"active\":true\x7d")] ∧
      (info_deactivate World.live 1).queue =
        World.live.queue ++
          [Task.onNotification 0 (NotificationFunc.active false),
           Task.onNotification 0
             (NotificationFunc.jsEvent "obsSourceActiveChanged" "\x7b\"active\":false\x7d")]) :=
  ⟨by decide, by decide, (C16_activate_deactivate World.live 1).2.2.1 0 (by decide) (by decide)⟩

/-- C17: when a source has no live browser instance, every operation routed through the
asynchronous path is dropped without a trace: Refresh, the mouse, focus and key senders,
SetActive (its Active message and its event) and a targeted DispatchJSEvent return the
world unchanged, and a resize-only Update only stores the new size: nothing is submitted
to the bridge and the engine is not touched. -/
theorem C17_no_browser_drops (cfg : Build) (w : World) (this : Nat)
    (hnone : (w.src this).cefNotification = none) :
    Refresh w this = w ∧
    (∀ event type mouse_up click_count,
      SendMouseClick w this event type mouse_up click_count = w) ∧
    (∀ event mouse_leave, SendMouseMove w this event mouse_leave = w) ∧
    (∀ event x_delta y_delta, SendMouseWheel w this event x_delta y_delta = w) ∧
    (∀ focus, SendFocus w this focus = w) ∧
    (∀ event key_up, SendKeyClick w this event key_up = w) ∧
    (∀ active, SetActive w this active = w) ∧
    (∀ fuel eventName jsonString,
      DispatchJSEvent fuel w eventName jsonString (some this) = some w) ∧
    (∀ st, onlySizeDiffers (derive cfg st) (w.src this) →
      (Update cfg w this (some st)).queue = w.queue ∧
      (Update cfg w this (some st)).engine = w.engine) := by
  have hdrop : ∀ func, NotificationSource.ExecuteOnNotification w this func = w := by
    intro func
    rw [executeOn_eq_enqueue, taskFor_no_browser w func this hnone, enqueue_nil]
  refine ⟨hdrop _, fun _ _ _ _ => hdrop _, fun _ _ => hdrop _, fun _ _ _ => hdrop _,
    fun _ => hdrop _, ?_, ?_, ?_, ?_⟩
  · intro event key_up
    unfold SendKeyClick
    split
    · rfl
    · exact hdrop _
  · intro active
    rw [SetActive_eq, taskFor_no_browser w _ this hnone, taskFor_no_browser w _ this hnone]
    exact enqueue_nil w
  · intro fuel eventName jsonString
    simp only [DispatchJSEvent, ExecuteOnNotification]
    rw [hdrop]
  · intro st hst
    rw [update_resize_eq cfg w this st hst]
    split
    · exact ⟨rfl, rfl⟩
    · rw [taskFor_no_browser w _ this hnone]
      exact ⟨by simp [World.enqueue, World.setSrc], rfl⟩

theorem C17_witness :
    ((World.start [RegCall.construct 1]).src 1).cefNotification = none ∧
    Refresh (World.start [RegCall.construct 1]) 1 = World.start [RegCall.construct 1] :=
  ⟨rfl, (C17_no_browser_drops Build.windows (World.start [RegCall.construct 1]) 1 rfl).1⟩

/-! ### The entry points that dispatch events -/

/-- C18 (as stated, refuted): the websocket request emit_event without event_data hands the
payload of an empty object to DispatchJSEvent, not the literal null. -/
theorem C18_counterexample :
    emit_event_request_cb (some "ping") none = some ⟨"ping", "\x7b\x7d", none⟩ ∧
    ("\x7b\x7d" : String) ≠ "null" := by
  decide

/-- C18 (amended): every payload-less frontend event of handle_obs_frontend_event is
dispatched as a broadcast with the payload null, and javascript_event called without a
jsonString dispatches with the payload null; the websocket request emit_event without
event_data dispatches with the payload of an empty object instead. -/
theorem C18_payload_of_dataless_events :
    (∀ (event : obs_frontend_event) (fe : Frontend), payloadLess event = true →
      ∃ name, handle_obs_frontend_event event fe = some ⟨name, "null", none⟩) ∧
    (∀ (p : Nat) (eventName : String),
      jsEventFunction p (some eventName) none = some ⟨eventName, "null", some p⟩) ∧
    (∀ (event_name : String),
      emit_event_request_cb (some event_name) none = some ⟨event_name, "\x7b\x7d", none⟩) := by
  refine ⟨?_, fun _ _ => rfl, fun _ => rfl⟩
  intro event fe h
  cases event <;> first
    | exact ⟨_, rfl⟩
    | exact absurd h (by decide)

theorem C18_witness :
    payloadLess obs_frontend_event.EXIT = true ∧
    ∃ name, handle_obs_frontend_event obs_frontend_event.EXIT ⟨none, "[]", none, "[]"⟩
      = some ⟨name, "null", none⟩ :=
  ⟨by decide, C18_payload_of_dataless_events.1 obs_frontend_event.EXIT ⟨none, "[]", none, "[]"⟩
    (by decide)⟩

/-- C19: a call of javascript_event without eventName dispatches nothing (the world is
unchanged); with an eventName it makes exactly one call of DispatchJSEvent, whose target is
the owning source (never the null target of a broadcast) and whose eventName and jsonString
are the given ones; its whole effect is the task, if any, that the asynchronous path of
the owning source queues for that source's browser. -/
theorem C19_javascript_event (fuel : Nat) (w : World) (p : Nat) :
    (∀ jsonString, jsEventFunction p none jsonString = none) ∧
    (∀ jsonString, dispatch fuel w (jsEventFunction p none jsonString) = some w) ∧
    (∀ eventName jsonString,
      jsEventFunction p (some eventName) (some jsonString) =
        some ⟨eventName, jsonString, some p⟩) ∧
    (∀ eventName jsonString,
      dispatch fuel w (jsEventFunction p (some eventName) (some jsonString)) =
        DispatchJSEvent fuel w eventName jsonString (some p)) ∧
    (∀ eventName jsonString,
      dispatch fuel w (jsEventFunction p (some eventName) (some jsonString)) =
        some (w.enqueue (taskFor w (NotificationFunc.jsEvent eventName jsonString) p))) := by
  refine ⟨fun _ => rfl, fun _ => rfl, fun _ _ => rfl, fun _ _ => rfl, ?_⟩
  intro eventName jsonString
  simp only [jsEventFunction, dispatch, DispatchJSEvent, ExecuteOnNotification,
    executeOn_eq_enqueue, Option.getD_some]

/-! ### Rejected submissions -/

/-- C20 (as stated, refuted): the creation of the browser of source 1 is pending while the
bridge rejects submissions; a Tick is rejected and leaves the pending-recreate flag set,
and once the bridge accepts, the next Tick submits the creation again although no Update
has occurred in between. -/
theorem C20_counterexample :
    (World.pendingRejecting.src 1).create_notification = true ∧
    World.pendingRejecting.accepting = false ∧
    (Tick World.pendingRejecting 1).queue = [] ∧
    ((Tick World.pendingRejecting 1).src 1).create_notification = true ∧
    (Tick (Tick World.pendingRejecting 1).accepts 1).queue = [Task.CreateNotification 1] := by
  decide

/-- C20 (amended): while the bridge rejects submissions, QueueCEFTask reports the rejection
and keeps no record of the task, and every operation on the asynchronous path of a source
returns the world unchanged, so that no later call can resubmit it; Destroy queues no
deletion. Browser creation is the exception: a rejected Tick changes nothing, so the
pending-recreate flag stays set, and the next Tick that the bridge accepts submits the
creation, without any new Update. -/
theorem C20_rejected_submissions (w : World) (this : Nat) (hrej : w.accepting = false) :
    (∀ task, QueueCEFTask w task = (w, false)) ∧
    (∀ func, NotificationSource.ExecuteOnNotification w this func = w) ∧
    Refresh w this = w ∧
    (∀ active, SetActive w this active = w) ∧
    (∀ fuel eventName jsonString,
      DispatchJSEvent fuel w eventName jsonString (some this) = some w) ∧
    (Destroy w this).queue = w.queue ∧
    Tick w this = w ∧
    ((w.src this).create_notification = true →
      (Tick (Tick w this).accepts this).queue = w.queue ++ [Task.CreateNotification this] ∧
      ((Tick (Tick w this).accepts this).src this).create_notification = false) := by
  have hq : ∀ task, QueueCEFTask w task = (w, false) := by
    intro task
    simp [QueueCEFTask, hrej]
  have hdrop : ∀ func, NotificationSource.ExecuteOnNotification w this func = w := by
    intro func
    rw [executeOn_eq_enqueue, taskFor_rejecting w func this hrej, enqueue_nil]
  have htick : Tick w this = w := by
    unfold Tick CreateNotification
    rw [hq]
    simp
  refine ⟨hq, hdrop, hdrop _, ?_, ?_, ?_, htick, ?_⟩
  · intro active
    rw [SetActive_eq, taskFor_rejecting w _ this hrej, taskFor_rejecting w _ this hrej]
    exact enqueue_nil w
  · intro fuel eventName jsonString
    simp only [DispatchJSEvent, ExecuteOnNotification]
    rw [hdrop]
  · rw [Destroy_eq]
    simp [hrej]
  · intro hflag
    rw [htick]
    have h := tick_pending w.accepts this hflag rfl
    exact ⟨h.1, h.2.1⟩

theorem C20_witness :
    World.pendingRejecting.accepting = false ∧
    Tick World.pendingRejecting 1 = World.pendingRejecting :=
  ⟨by decide, (C20_rejected_submissions World.pendingRejecting 1 (by decide)).2.2.2.2.2.2.1⟩

/-! ### Registry: well-formedness of the intrusive list -/

theorem chain_at (s : Registry) (x : Nat) :
    ∀ (pre : List Nat) (loc : Loc) (post : List Nat), Chain s loc (pre ++ x :: post) →
      ∃ at_, Chain s at_ (x :: post) ∧
        ((pre = [] ∧ at_ = loc) ∨ ∃ pre1 y, pre = pre1 ++ [y] ∧ at_ = Loc.nextOf y) := by
  intro pre
  induction pre with
  | nil =>
    intro loc post h
    exact ⟨loc, h, Or.inl ⟨rfl, rfl⟩⟩
  | cons y ys ih =>
    intro loc post h
    obtain ⟨at_, hc, hat⟩ := ih (Loc.nextOf y) post h.2.2
    refine ⟨at_, hc, Or.inr ?_⟩
    rcases hat with ⟨hnil, hloc⟩ | ⟨pre1, z, hpre, hloc⟩
    · exact ⟨[], y, by simp [hnil], hloc⟩
    · exact ⟨y :: pre1, z, by simp [hpre], hloc⟩

/-- C24: in every state reached by constructor and Destroy calls the intrusive list is well
formed: the chain of next pointers from the head is finite (the traversal terminates) and
acyclic (it visits no instance twice), it holds every registered instance, and for every
registered instance x the location stored in x.p_prev_next holds x itself; that location is
the head pointer when x is first and the next field of the predecessor of x otherwise. -/
theorem C24_list_well_formed (h : List RegCall) (hadm : admissible h = true) :
    ∃ l, (∀ fuel, h.length ≤ fuel → (Registry.run h).traversal fuel = some l) ∧ l.Nodup ∧
      ∀ x, registered x h = true →
        x ∈ l ∧
        (Registry.run h).load ((Registry.run h).p_prev_next x) = some x ∧
        ((l.head? = some x ∧ (Registry.run h).p_prev_next x = Loc.head) ∨
          ∃ pre y post, l = pre ++ y :: x :: post ∧
            (Registry.run h).p_prev_next x = Loc.nextOf y ∧
            (Registry.run h).next y = some x) := by
  obtain ⟨hc, hnd, hmem⟩ := run_chain h hadm
  refine ⟨expected h, fun fuel hf => traversal_run h hadm fuel hf, hnd, ?_⟩
  intro x hx
  have hin : x ∈ expected h := (hmem x).mpr hx
  obtain ⟨pre, post, hsplit⟩ := List.append_of_mem hin
  rw [hsplit] at hc
  obtain ⟨at_, ⟨hload, hp, _⟩, hat⟩ := chain_at _ x pre Loc.head post hc
  refine ⟨hin, by rw [hp]; exact hload, ?_⟩
  rcases hat with ⟨hnil, hloc⟩ | ⟨pre1, y, hpre, hloc⟩
  · left
    refine ⟨?_, by rw [hp, hloc]⟩
    rw [hsplit, hnil]
    rfl
  · right
    refine ⟨pre1, y, post, ?_, by rw [hp, hloc], ?_⟩
    · rw [hsplit, hpre]
      simp
    · rw [hloc] at hload
      exact hload

theorem C24_witness :
    admissible [RegCall.Destroy 2, RegCall.construct 3, RegCall.construct 2, RegCall.construct 1]
      = true ∧
    ∃ l, (∀ fuel,
        [RegCall.Destroy 2, RegCall.construct 3, RegCall.construct 2, RegCall.construct 1].length
          ≤ fuel →
        (Registry.run
          [RegCall.Destroy 2, RegCall.construct 3, RegCall.construct 2,
           RegCall.construct 1]).traversal fuel = some l) ∧ l.Nodup ∧
      ∀ x, registered x
          [RegCall.Destroy 2, RegCall.construct 3, RegCall.construct 2, RegCall.construct 1]
          = true →
        x ∈ l ∧
        (Registry.run
          [RegCall.Destroy 2, RegCall.construct 3, RegCall.construct 2, RegCall.construct 1]).load
          ((Registry.run
            [RegCall.Destroy 2, RegCall.construct 3, RegCall.construct 2,
             RegCall.construct 1]).p_prev_next x) = some x ∧
        ((l.head? = some x ∧
          (Registry.run
            [RegCall.Destroy 2, RegCall.construct 3, RegCall.construct 2,
             RegCall.construct 1]).p_prev_next x = Loc.head) ∨
          ∃ pre y post, l = pre ++ y :: x :: post ∧
            (Registry.run
              [RegCall.Destroy 2, RegCall.construct 3, RegCall.construct 2,
               RegCall.construct 1]).p_prev_next x = Loc.nextOf y ∧
            (Registry.run
              [RegCall.Destroy 2, RegCall.construct 3, RegCall.construct 2,
               RegCall.construct 1]).next y = some x) :=
  ⟨by decide, C24_list_well_formed _ (by decide)⟩

/-! ### The two replacement loops: termination -/

theorem occursAt_middle (a b q : List Char) (hq : '/' ∉ q) (hlen : q.length = 3) (j : Nat)
    (h : occursAt q (a ++ '/' :: b) j = true) :
    (j + 3 ≤ a.length ∧ q <+: a.drop j) ∨ (a.length < j ∧ q <+: b.drop (j - a.length - 1)) := by
  have hp : q <+: (a ++ '/' :: b).drop j := List.isPrefixOf_iff_prefix.mp h
  by_cases h1 : j + 3 ≤ a.length
  · left
    refine ⟨h1, ?_⟩
    have hd : (a ++ '/' :: b).drop j = a.drop j ++ '/' :: b := by
      rw [List.drop_append_of_le_length (by omega)]
    rw [hd] at hp
    exact List.prefix_of_prefix_length_le hp (List.prefix_append _ _) (by simp; omega)
  · by_cases h2 : a.length < j
    · right
      refine ⟨h2, ?_⟩
      have hd : (a ++ '/' :: b).drop j = b.drop (j - a.length - 1) := by
        rw [List.drop_append_eq_append_drop]
        have h0 : List.drop j a = [] := List.drop_eq_nil_of_le (by omega)
        have h3 : j - a.length = (j - a.length - 1) + 1 := by omega
        rw [h0, h3]
        simp
      rw [hd] at hp
      exact hp
    · exfalso
      obtain ⟨t, ht⟩ := hp
      have hget : ((a ++ '/' :: b).drop j)[a.length - j]? = some '/' := by
        rw [List.getElem?_drop]
        have : j + (a.length - j) = a.length := by omega
        rw [this, List.getElem?_append_right (le_refl _)]
        simp
      rw [← ht, List.getElem?_append_left (by omega)] at hget
      exact hq (List.getElem?_mem hget)

theorem occursAt_replace (pat q : List Char) (hpat : pat.length = 3) (hq : '/' ∉ q)
    (hlen : q.length = 3) (s : List Char) (i : Nat) (h : find pat s = some i) (j : Nat)
    (hocc : occursAt q (replace s i 3 ['/']) j = true) :
    (j + 3 ≤ i ∧ occursAt q s j = true) ∨ (i < j ∧ occursAt q s (j + 2) = true) := by
  obtain ⟨a, b, hab, hi⟩ := find_some_split pat s i h
  have hrep := replace_split a pat b ['/']
  rw [hpat, hi, ← hab] at hrep
  rw [hrep] at hocc
  have hocc2 : occursAt q (a ++ '/' :: b) j = true := by simpa [List.append_assoc] using hocc
  rcases occursAt_middle a b q hq hlen j hocc2 with ⟨h1, h2⟩ | ⟨h1, h2⟩
  · left
    refine ⟨by omega, ?_⟩
    apply List.isPrefixOf_iff_prefix.mpr
    rw [hab, List.append_assoc, List.drop_append_of_le_length (by omega)]
    exact h2.trans (List.prefix_append _ _)
  · right
    refine ⟨by omega, ?_⟩
    apply List.isPrefixOf_iff_prefix.mpr
    have hd : (a ++ pat ++ b).drop (j + 2) = b.drop (j - a.length - 1) := by
      rw [List.drop_append_eq_append_drop]
      have h0 : List.drop (j + 2) (a ++ pat) = [] :=
        List.drop_eq_nil_of_le (by simp [hpat]; omega)
      rw [h0]
      simp only [List.nil_append, List.length_append, hpat]
      congr 1
      omega
    rw [hab, hd]
    exact h2

theorem replaceLoop_terminates (pat : List Char) (hpat : pat.length = 3) :
    ∀ (n : Nat) (s : List Char), s.length ≤ n →
      ∃ k, 2 * k ≤ s.length ∧
        (∀ fuel, k ≤ fuel → replaceLoop pat fuel s = replaceLoop pat k s) ∧
        find pat (replaceLoop pat k s) = none ∧
        (replaceLoop pat k s).length + 2 * k = s.length := by
  intro n
  induction n with
  | zero =>
    intro s hs
    have hnil : s = [] := List.length_eq_zero.mp (Nat.le_zero.mp hs)
    subst hnil
    have hf : find pat [] = none := by
      rw [find_eq_none_iff]
      intro hin
      have := List.infix_nil.mp hin
      rw [this] at hpat
      simp at hpat
    refine ⟨0, by simp, ?_, by simpa [replaceLoop] using hf, by simp [replaceLoop]⟩
    intro fuel _
    cases fuel with
    | zero => rfl
    | succ m => simp [replaceLoop, hf]
  | succ m ih =>
    intro s hs
    cases hf : find pat s with
    | none =>
      refine ⟨0, by simp, ?_, by simpa [replaceLoop] using hf, by simp [replaceLoop]⟩
      intro fuel _
      cases fuel with
      | zero => rfl
      | succ m => simp [replaceLoop, hf]
    | some i =>
      have hl := replace_found_length pat hpat s i hf
      obtain ⟨k, hk1, hk2, hk3, hk4⟩ := ih (replace s i 3 ['/']) (by omega)
      refine ⟨k + 1, by omega, ?_, ?_, ?_⟩
      · intro fuel hfuel
        cases fuel with
        | zero => omega
        | succ f =>
          simp only [replaceLoop, hf]
          exact hk2 f (by omega)
      · simpa [replaceLoop, hf] using hk3
      · simp only [replaceLoop, hf]
        omega

/-- C27: for every input string each of the two replacement loops of Update terminates: with
enough iterations (at most half the length of the string) the loop leaves through its
condition, and further fuel does not change the result; every iteration shortens the
string by exactly 2 characters; and a replacement never creates a new occurrence of either
pattern: every occurrence in the new string is an occurrence of the old string, at the same
position before the replaced one or two positions further on behind it. -/
theorem C27_replacement_loops_terminate (s : List Char) :
    ∀ pat, pat ∈ ["%5C".toList, "%2F".toList] →
      (∃ k, 2 * k ≤ s.length ∧
        (∀ fuel, k ≤ fuel → replaceLoop pat fuel s = replaceLoop pat k s) ∧
        replaceAll pat s = replaceLoop pat k s ∧
        find pat (replaceAll pat s) = none ∧
        (replaceAll pat s).length + 2 * k = s.length) ∧
      ∀ i, find pat s = some i →
        (replace s i 3 ['/']).length + 2 = s.length ∧
        ∀ q, q ∈ ["%5C".toList, "%2F".toList] → ∀ j,
          occursAt q (replace s i 3 ['/']) j = true →
            (j + 3 ≤ i ∧ occursAt q s j = true) ∨ (i < j ∧ occursAt q s (j + 2) = true) := by
  intro pat hpat
  have hlen : pat.length = 3 := by
    simp only [List.mem_cons, List.mem_singleton, List.not_mem_nil, or_false] at hpat
    rcases hpat with h | h <;> rw [h] <;> rfl
  constructor
  · obtain ⟨k, hk1, hk2, hk3, hk4⟩ := replaceLoop_terminates pat hlen s.length s (le_refl _)
    have hall : replaceAll pat s = replaceLoop pat k s := hk2 s.length (by omega)
    exact ⟨k, hk1, hk2, hall, by rw [hall]; exact hk3, by rw [hall]; exact hk4⟩
  · intro i hi
    refine ⟨replace_found_length pat hlen s i hi, ?_⟩
    intro q hq j hocc
    have hq3 : q.length = 3 ∧ '/' ∉ q := by
      simp only [List.mem_cons, List.mem_singleton, List.not_mem_nil, or_false] at hq
      rcases hq with h | h <;> rw [h] <;> exact ⟨rfl, by decide⟩
    exact occursAt_replace pat q hlen hq3.2 hq3.1 s i hi j hocc

theorem C27_witness :
    "%5C".toList ∈ ["%5C".toList, "%2F".toList] ∧
    ∃ k, 2 * k ≤ "C%3A%5Ca%5Cb".toList.length ∧
      (∀ fuel, k ≤ fuel →
        replaceLoop "%5C".toList fuel "C%3A%5Ca%5Cb".toList =
          replaceLoop "%5C".toList k "C%3A%5Ca%5Cb".toList) ∧
      replaceAll "%5C".toList "C%3A%5Ca%5Cb".toList =
        replaceLoop "%5C".toList k "C%3A%5Ca%5Cb".toList ∧
      find "%5C".toList (replaceAll "%5C".toList "C%3A%5Ca%5Cb".toList) = none ∧
      (replaceAll "%5C".toList "C%3A%5Ca%5Cb".toList).length + 2 * k =
        "C%3A%5Ca%5Cb".toList.length :=
  ⟨by decide, (C27_replacement_loops_terminate "C%3A%5Ca%5Cb".toList "%5C".toList (by decide)).1⟩

/-! ### The rewrite of `http://absolute/` -/

theorem derive_eq_rewrite (cfg : Build) (st : Settings) :
    (derive cfg st).n_url =
      (if (cfg.local_file_url_scheme &&
          astrcmpi_n_eq (urlBeforeRewrite cfg st) "http://absolute/".toList 16) = true
        then "file:///".toList ++ (urlBeforeRewrite cfg st).drop 16
        else urlBeforeRewrite cfg st) ∧
    (derive cfg st).n_is_local =
      (if (cfg.local_file_url_scheme &&
          astrcmpi_n_eq (urlBeforeRewrite cfg st) "http://absolute/".toList 16) = true
        then true else st.is_local_file) :=
  ⟨rfl, rfl⟩

theorem astrcmpi_iff_begins (u : List Char) :
    astrcmpi_n_eq u "http://absolute/".toList 16 = true ↔
      ∃ rest, beginsWithNoCase "http://absolute/".toList u rest := by
  have hp : ("http://absolute/".toList).take 16 = "http://absolute/".toList := by decide
  have hl : ("http://absolute/".toList).length = 16 := by decide
  unfold astrcmpi_n_eq beginsWithNoCase
  rw [hp, decide_eq_true_iff]
  constructor
  · intro h
    refine ⟨u.drop 16, u.take 16, (List.take_append_drop 16 u).symm, ?_, h⟩
    have := congrArg List.length h
    simp only [List.length_map] at this
    rw [this]
  · rintro ⟨rest, head, hu, hlen, hmap⟩
    rw [hl] at hlen
    rw [hu, List.take_left' hlen]
    exact hmap

/-- C23: with file URLs enabled, when the URL reached at this step begins, up to case, with
the 16 characters http://absolute/ and goes on with some remainder, Update makes the URL
file:/// followed by that remainder and the source local-file mode; a URL that does not
begin so is left unchanged by this step, as is the local-file mode. -/
theorem C23_absolute_rewrite (cfg : Build) (st : Settings)
    (hs : cfg.local_file_url_scheme = true) :
    (∀ rest, beginsWithNoCase "http://absolute/".toList (urlBeforeRewrite cfg st) rest →
      (derive cfg st).n_url = "file:///".toList ++ rest ∧ (derive cfg st).n_is_local = true) ∧
    ((¬ ∃ rest, beginsWithNoCase "http://absolute/".toList (urlBeforeRewrite cfg st) rest) →
      (derive cfg st).n_url = urlBeforeRewrite cfg st ∧
      (derive cfg st).n_is_local = st.is_local_file) := by
  obtain ⟨h1, h2⟩ := derive_eq_rewrite cfg st
  have hl : ("http://absolute/".toList).length = 16 := by decide
  constructor
  · intro rest hb
    have ha : astrcmpi_n_eq (urlBeforeRewrite cfg st) "http://absolute/".toList 16 = true :=
      (astrcmpi_iff_begins _).mpr ⟨rest, hb⟩
    obtain ⟨head, hu, hlen, _⟩ := hb
    rw [hl] at hlen
    have hdrop : (urlBeforeRewrite cfg st).drop 16 = rest := by
      rw [hu, List.drop_left' hlen]
    have hcond : (cfg.local_file_url_scheme &&
        astrcmpi_n_eq (urlBeforeRewrite cfg st) "http://absolute/".toList 16) = true := by
      rw [hs, ha]; rfl
    rw [h1, h2, if_pos hcond, if_pos hcond, hdrop]
    exact ⟨rfl, rfl⟩
  · intro hno
    have ha : astrcmpi_n_eq (urlBeforeRewrite cfg st) "http://absolute/".toList 16 = false := by
      cases hc : astrcmpi_n_eq (urlBeforeRewrite cfg st) "http://absolute/".toList 16 with
      | false => rfl
      | true => exact absurd ((astrcmpi_iff_begins _).mp hc) hno
    have hcond : ¬ (cfg.local_file_url_scheme &&
        astrcmpi_n_eq (urlBeforeRewrite cfg st) "http://absolute/".toList 16) = true := by
      rw [hs, ha]; decide
    rw [h1, h2, if_neg hcond, if_neg hcond]
    exact ⟨rfl, rfl⟩

theorem C23_witness :
    Build.windows.local_file_url_scheme = true ∧
    (derive Build.windows (Settings.ofUrl "HTTP://Absolute/C:/a.html".toList)).n_url
      = "file:///".toList ++ "C:/a.html".toList ∧
    (derive Build.windows (Settings.ofUrl "HTTP://Absolute/C:/a.html".toList)).n_is_local = true :=
  ⟨rfl, (C23_absolute_rewrite Build.windows (Settings.ofUrl "HTTP://Absolute/C:/a.html".toList)
      rfl).1 "C:/a.html".toList ⟨"HTTP://Absolute/".toList, by decide, by decide, by decide⟩⟩

/-! ### Update twice -/

theorem update_same_eq (cfg : Build) (w : World) (this : Nat) (st : Settings)
    (h1 : sameButSize (derive cfg st) (w.src this) = true)
    (h2 : (derive cfg st).n_width = (w.src this).width)
    (h3 : (derive cfg st).n_height = (w.src this).height) :
    Update cfg w this (some st) = w := by
  simp [Update, h1, h2, h3]

theorem sameButSize_iff (d : Derived) (s : NotificationSource) :
    sameButSize d s = true ↔ onlySizeDiffers d s := by
  constructor
  · intro hs
    simp only [sameButSize, Bool.and_eq_true, beq_iff_eq] at hs
    obtain ⟨⟨⟨⟨⟨⟨⟨⟨h1, h2⟩, h3⟩, h4⟩, h5⟩, h6⟩, h7⟩, h8⟩, h9⟩ := hs
    exact ⟨h1, h2, h3, h4, h5, h6, h7, h8, h9⟩
  · exact sameButSize_of_onlySizeDiffers d s

/-- C25: Update is idempotent on settings: a second Update(S) right after Update(S) returns
the world the first one left, unchanged: no configuration field, no queued teardown or
resize, and not the pending-recreate flag. -/
theorem C25_update_idempotent (cfg : Build) (w : World) (this : Nat) (st : Settings) :
    Update cfg (Update cfg w this (some st)) this (some st) = Update cfg w this (some st) := by
  cases hs : sameButSize (derive cfg st) (w.src this) with
  | true =>
    have hos := (sameButSize_iff _ _).mp hs
    rw [update_resize_eq cfg w this st hos]
    split
    · rename_i hsz
      exact update_same_eq cfg w this st hs hsz.1 hsz.2
    · apply update_same_eq
      · apply sameButSize_of_onlySizeDiffers
        obtain ⟨h1, h2, h3, h4, h5, h6, h7, h8, h9⟩ := hos
        simp [onlySizeDiffers, World.enqueue, World.setSrc, h1, h2, h3, h4, h5, h6, h7, h8, h9]
      · simp [World.enqueue, World.setSrc]
      · simp [World.enqueue, World.setSrc]
  | false =>
    rw [update_change_eq cfg w this st hs]
    apply update_same_eq
    · apply sameButSize_of_onlySizeDiffers
      rw [recreate_src]
      simp [onlySizeDiffers, storeDerived, World.setSrc]
    · rw [recreate_src]
      simp [storeDerived, World.setSrc]
    · rw [recreate_src]
      simp [storeDerived, World.setSrc]

/-! ### The blacklist of display adapters -/

theorem wstrstri_iff (str find_ : List Char) :
    wstrstri str find_ = true ↔ containsNoCase str find_ := by
  unfold wstrstri containsNoCase
  rw [Option.isSome_iff_ne_none, Ne, find_eq_none_iff, not_not]

theorem scanBlacklist_eq (deviceId : List Char) (hwaccel : Bool) :
    ∀ l : List (List Char),
      ((∃ name, name ∈ l ∧ containsNoCase deviceId name) →
        scanBlacklist deviceId l hwaccel = false) ∧
      ((¬ ∃ name, name ∈ l ∧ containsNoCase deviceId name) →
        scanBlacklist deviceId l hwaccel = hwaccel) := by
  intro l
  induction l with
  | nil =>
    constructor
    · rintro ⟨name, hmem, _⟩
      exact absurd hmem (List.not_mem_nil name)
    · intro _
      rfl
  | cons device rest ih =>
    by_cases hd : wstrstri deviceId device = true
    · constructor
      · intro _
        simp only [scanBlacklist, hd, if_true]
      · intro hno
        exact absurd ⟨device, List.mem_cons_self device rest, (wstrstri_iff _ _).mp hd⟩ hno
    · have hstep : scanBlacklist deviceId (device :: rest) hwaccel =
          scanBlacklist deviceId rest hwaccel := by
        simp only [scanBlacklist, hd, if_false]
        rfl
      rw [hstep]
      constructor
      · rintro ⟨name, hmem, hc⟩
        rcases List.mem_cons.mp hmem with heq | hin
        · subst heq
          exact absurd ((wstrstri_iff _ _).mpr hc) hd
        · exact ih.1 ⟨name, hin, hc⟩
      · intro hno
        exact ih.2 (fun ⟨name, hin, hc⟩ => hno ⟨name, List.mem_cons_of_mem device hin, hc⟩)

/-- C22, the claim as stated fails: with a single adapter whose description is Microsoft
Basic Render Driver (a blacklisted name, and not two or more adapters),
check_hwaccel_support turns hardware acceleration off. -/
theorem C22_counterexample :
    isBlacklisted "Microsoft Basic Render Driver".toList ∧
    ¬ (2 : Int) ≤ 1 ∧
    check_hwaccel_support 1 "Microsoft Basic Render Driver".toList true = false :=
  ⟨⟨"Microsoft".toList, by decide,
    [], " Basic Render Driver".toList.map toupper, by decide⟩, by decide, by decide⟩

/-- C22, amended: check_hwaccel_support turns hardware acceleration off exactly when the
default adapter's description contains a blacklisted device name, up to ASCII case, and
either two or more adapters are present or the description does not contain Intel; in every
other case hwaccel is left unchanged. -/
theorem C22_hwaccel_gate (adapterCount : Int) (deviceId : List Char) (hwaccel : Bool) :
    (isBlacklisted deviceId ∧
        (2 ≤ adapterCount ∨ ¬ containsNoCase deviceId "Intel".toList) →
      check_hwaccel_support adapterCount deviceId hwaccel = false) ∧
    (¬ (isBlacklisted deviceId ∧
        (2 ≤ adapterCount ∨ ¬ containsNoCase deviceId "Intel".toList)) →
      check_hwaccel_support adapterCount deviceId hwaccel = hwaccel) := by
  have hscan := scanBlacklist_eq deviceId hwaccel blacklisted_devices
  have hgate : (adapterCount ≥ 2 || !is_intel deviceId) = true ↔
      (2 ≤ adapterCount ∨ ¬ containsNoCase deviceId "Intel".toList) := by
    rw [Bool.or_eq_true, decide_eq_true_iff, Bool.not_eq_true', ← Bool.not_eq_true]
    unfold is_intel
    rw [wstrstri_iff]
  constructor
  · rintro ⟨hb, hg⟩
    unfold check_hwaccel_support
    rw [if_pos (hgate.mpr hg)]
    exact hscan.1 hb
  · intro hn
    unfold check_hwaccel_support
    by_cases hg : (adapterCount ≥ 2 || !is_intel deviceId) = true
    · rw [if_pos hg]
      exact hscan.2 (fun hb => hn ⟨hb, hgate.mp hg⟩)
    · rw [if_neg hg]

theorem C22_witness :
    (isBlacklisted "Intel(R) UHD Graphics 630".toList ∧
      ((2 : Int) ≤ 2 ∨ ¬ containsNoCase "Intel(R) UHD Graphics 630".toList "Intel".toList)) ∧
    check_hwaccel_support 2 "Intel(R) UHD Graphics 630".toList true = false :=
  ⟨⟨⟨"Intel".toList, by decide, [], "(R) UHD Graphics 630".toList.map toupper, by decide⟩,
      Or.inl (by decide)⟩,
    (C22_hwaccel_gate 2 "Intel(R) UHD Graphics 630".toList true).1
      ⟨⟨"Intel".toList, by decide, [], "(R) UHD Graphics 630".toList.map toupper, by decide⟩,
        Or.inl (by decide)⟩⟩

/-! ### Deletion and the back-reference of the client -/

/-- C21: a source can have exactly one live browser and yet hold no handle to it (the
browser left over by the interleaving of C10). Destroy followed by the deletion task then
releases the source while that browser is still live and its client still refers back to
the source. When the source holds the handle of its one browser, the deletion task clears
the back-reference and closes the browser, and then releases the source. -/
theorem C21_orphaned_browser_keeps_back_reference :
    (liveFor World.orphaned 1 = [0] ∧
      (World.orphaned.src 1).cefNotification = none ∧
      World.orphaned.engine.client_bs 0 = some 1 ∧
      (Destroy World.orphaned 1).queue = [Task.deleteThis 1] ∧
      (runNext Build.windows (Destroy World.orphaned 1)).freed = [1] ∧
      (runNext Build.windows (Destroy World.orphaned 1)).engine.live = [0] ∧
      (runNext Build.windows (Destroy World.orphaned 1)).engine.client_bs 0 = some 1 ∧
      danglingBackReference (runNext Build.windows (Destroy World.orphaned 1)) 0 = true) ∧
    (liveFor World.live 1 = [0] ∧
      (World.live.src 1).cefNotification = some 0 ∧
      World.live.engine.client_bs 0 = some 1 ∧
      (Destroy World.live 1).queue = [Task.deleteThis 1] ∧
      (runNext Build.windows (Destroy World.live 1)).freed = [1] ∧
      (runNext Build.windows (Destroy World.live 1)).engine.live = [] ∧
      (runNext Build.windows (Destroy World.live 1)).engine.client_bs 0 = none ∧
      danglingBackReference (runNext Build.windows (Destroy World.live 1)) 0 = false) := by
  decide

/-! ### The pending-recreate flag of a hidden source -/

/-- C26: Update never clears the pending-recreate flag. While the host reports source 1 as
not showing, an Update without teardown-on-hide sets the flag, and a following Update that
turns teardown-on-hide on leaves it set: after that Update the source is hidden, in
teardown-on-hide mode, and the flag is true; the following Tick queues a creation, which
creates browser 0 for the hidden source. (After a single Update in teardown-on-hide mode the
flag is false and Tick queues nothing.) -/
theorem C26_flag_survives_update :
    ((World.twiceUpdatedHidden.src 1).shutdown_on_invisible = true ∧
      World.twiceUpdatedHidden.showing 1 = false ∧
      (World.twiceUpdatedHidden.src 1).create_notification = true ∧
      (Tick World.twiceUpdatedHidden 1).queue = [Task.CreateNotification 1] ∧
      liveFor (runNext Build.windows (Tick World.twiceUpdatedHidden 1)) 1 = [0]) ∧
    ((World.hiddenTeardownOnHide.src 1).shutdown_on_invisible = true ∧
      World.hiddenTeardownOnHide.showing 1 = false ∧
      (World.hiddenTeardownOnHide.src 1).create_notification = false ∧
      (Tick World.hiddenTeardownOnHide 1).queue = []) := by
  decide

end SptNotification
